import Mathlib

/-!
Shallow embedding of the two data apps in this repository:

* `Survey` models `stack_overflow_dev_survey/stack_overflow_dev_survey_app.py`:
  the explode / full-join / count / proportion pipeline of `explode_column`,
  `create_have_want_df`, `create_have_want_count_df`, `create_have_want_prop_df`,
  `create_prop_have_who_want_df`, `create_prop_want_who_not_have_df`,
  `clean_prop_df`, `join_have_want_count_dfs` and `create_plot_data`.

* `Rural` models `rural_investments/rural_investments_app.py`:
  `group_and_calc_data` and `create_plot_data` (sum / count / average and the
  SVI sub-population proportions).

Tabular data is modelled as Lean lists of records; polars expressions become
list transformations.  One technology category is modelled: each record carries
the raw have / want cell for that category.  Grouping dimensions are modelled
by a selector `g : Record -> String`; the ungrouped (bar-plot) pipeline, where
the code passes `groups = []`, is the instance `g = noGroups` (constantly `""`),
so that the join key `(ResponseId, token, group value)` degenerates to
`(ResponseId, token)` exactly as in the source.  Floating point numbers are
modelled as rationals; for the rural app, where the claims concern division by
zero, a float value is an `FVal` (finite rational, plus or minus infinity, or
NaN) with IEEE-754 division-by-zero behaviour, which polars follows.
The display-only steps of the source (column renames via `clean = True`,
descending sorts for the charts) are omitted: polars `group_by` order is itself
unspecified, and no claim concerns output order.
-/

namespace Survey

/-- One survey respondent, restricted to the fields the pipeline reads:
`ResponseId`, the raw have cell and the raw want cell of the selected
technology category (`None` models a null cell), and the value of the selected
grouping column. -/
structure Record where
  rid : Nat
  hvF : Option String
  wtF : Option String
  grp : String
  deriving DecidableEq, Repr

/-- Grouping selector for the bar-plot path of `create_plot_data`
(`groups = []`): every record gets the same dummy group value, so group
components of keys are vacuous. -/
def noGroups : Record → String := fun _ => ""

/-- Grouping selector for the heat-map path (`groups = [group]`). -/
def byGroup : Record → String := Record.grp

/-- Split accumulator: the characters read since the last `';'` are collected
(in reverse) and flushed at each separator and at the end of the string. -/
def splitSemisAux : List Char → List Char → List String
  | [], acc => [String.mk acc.reverse]
  | c :: cs, acc =>
      if c = ';' then String.mk acc.reverse :: splitSemisAux cs []
      else splitSemisAux cs (c :: acc)

/-- Split on the `";"` delimiter exactly as polars `str.split(";")` computes
it: empty fragments are kept (`"A;"` gives `["A", ""]`) and the empty string
splits to `[""]`.  This agrees with `String.splitOn ";"`, but is defined by
structural recursion on the character list so that it evaluates inside
proofs. -/
def splitSemis (s : String) : List String :=
  splitSemisAux s.data []

/-- Token list a single record contributes to `explode_column`: rows with a
null cell or the literal `"NA"` are removed by
`df.filter((~pl.col(column).is_null()) & (pl.col(column) != "NA"))`, and the
remaining raw string is split on `";"` by `pl.col(column).str.split(";")`. -/
def recordTokens (sel : Record → Option String) (r : Record) : List String :=
  match sel r with
  | none => []
  | some s => if s = "NA" then [] else splitSemis s

/-- One row of an exploded have or want column: `ResponseId`, one token, and
the grouping value (`explode_column` selects `["ResponseId", column] + groups`). -/
structure ERow where
  rid : Nat
  tok : String
  grp : String
  deriving DecidableEq, Repr

/-- `explode_column(df, column, groups)`: one `ERow` per token of each
surviving record, in record order (the `.explode` of the split lists). -/
def explodeColumn (g : Record → String) (sel : Record → Option String) :
    List Record → List ERow
  | [] => []
  | r :: rs =>
      (recordTokens sel r).map (fun t => ⟨r.rid, t, g r⟩) ++ explodeColumn g sel rs

/-- One row of the have/want full join after coalescing: `ResponseId`, the
have-column value, the want-column value (each possibly null) and the grouping
value. -/
structure JRow where
  rid : Nat
  hv : Option String
  wt : Option String
  grp : String
  deriving DecidableEq, Repr

/-- Join-key equality of two exploded rows: the full join of
`create_have_want_df` is keyed on `["ResponseId", column] + groups`. -/
def keyMatch (a b : ERow) : Bool :=
  decide (b.rid = a.rid ∧ b.tok = a.tok ∧ b.grp = a.grp)

/-- The rows of `ws` matching the join key of `h`. -/
def matchesOf (ws : List ERow) (h : ERow) : List ERow :=
  ws.filter (keyMatch h)

/-- Joined rows a single have-row produces: one row per key-equal want-row
(carrying `some w.tok`, which by `keyMatch` equals the have token), or a single
row with a null want value when no want-row matches — polars full-join row
production. -/
def hBlock (ws : List ERow) (h : ERow) : List JRow :=
  if matchesOf ws h = [] then [⟨h.rid, some h.tok, none, h.grp⟩]
  else (matchesOf ws h).map (fun w => ⟨h.rid, some h.tok, some w.tok, h.grp⟩)

/-- Left (have) side of the full join: the blocks of all have-rows. -/
def havePart (ws : List ERow) : List ERow → List JRow
  | [] => []
  | h :: hs => hBlock ws h ++ havePart ws hs

/-- Right (want) side of the full join: want-rows with no key-equal have-row
appear once with a null have value.  `ResponseId` and the group value come
from the want side via the `pl.coalesce` loop of `create_have_want_df`. -/
def wantOnlyPart (hs ws : List ERow) : List JRow :=
  (ws.filter (fun w => matchesOf hs w = [])).map (fun w => ⟨w.rid, none, some w.tok, w.grp⟩)

/-- `create_have_want_df(df, have_column, want_column, groups)`: explode both
columns and full-join them on `(ResponseId, token, groups)`, coalescing the
duplicated key columns. -/
def createHaveWantDf (g : Record → String) (recs : List Record) : List JRow :=
  let hs := explodeColumn g (fun r => r.hvF) recs
  let ws := explodeColumn g (fun r => r.wtF) recs
  havePart ws hs ++ wantOnlyPart hs ws

/-- Count key of a joined row for grouping by `[have_column] + groups`:
`none` when the have value is null (such rows are removed by the
`~pl.col(column).is_null()` filter of `create_have_want_count_df`). -/
def haveKey (j : JRow) : Option (String × String) :=
  j.hv.map (fun t => (t, j.grp))

/-- Count key of a joined row for grouping by `[want_column] + groups`. -/
def wantKey (j : JRow) : Option (String × String) :=
  j.wt.map (fun t => (t, j.grp))

/-- `create_have_want_count_df(tech_category, column, have_want_df, groups)`:
drop rows whose column value is null, group by the key, output one `(key, len)`
row per distinct key.  The key extractor returns `none` exactly on the rows the
null-filter removes. -/
def createHaveWantCountDf {κ : Type} [DecidableEq κ]
    (rows : List JRow) (key : JRow → Option κ) : List (κ × Nat) :=
  ((rows.filterMap key).dedup).map
    (fun k => (k, rows.countP (fun j => decide (key j = some k))))

/-- `have_want_df["ResponseId"].unique().len()`: the number of distinct
respondent ids across the full join. -/
def nRespondents (rows : List JRow) : Nat :=
  ((rows.map (fun j => j.rid)).dedup).length

/-- `create_have_want_prop_df(tech_category, column, have_want_df, groups,
clean, exclusion_prop)`: the counts divided by the distinct-respondent
denominator, and, when an exclusion proportion is given, filtered by
`pl.col("prop") >= exclusion_prop`. -/
def createHaveWantPropDf {κ : Type} [DecidableEq κ]
    (rows : List JRow) (key : JRow → Option κ) (exclusionProp : Option ℚ) :
    List (κ × ℚ) :=
  let propDf := (createHaveWantCountDf rows key).map
    (fun p => (p.1, (p.2 : ℚ) / (nRespondents rows : ℚ)))
  match exclusionProp with
  | none => propDf
  | some θ => propDf.filter (fun p => decide (θ ≤ p.2))

/-- First value of a count df at a key (polars join lookup; count dfs have
pairwise distinct keys, so the first match is the only one). -/
def lookupVal {κ : Type} [DecidableEq κ] (l : List (κ × Nat)) (k : κ) : Option Nat :=
  (l.find? (fun p => decide (p.1 = k))).map (fun p => p.2)

/-- `join_have_want_count_dfs(left, right, left_on, right_on)` with
`how = "full"`: every left `(key, len)` row paired with the right count at the
same key (null when absent), plus the right rows whose key is absent from the
left, with a null left count (`len` / `len_right` in the source). -/
def joinHaveWantCountDfs {κ : Type} [DecidableEq κ]
    (left right : List (κ × Nat)) : List (κ × Option Nat × Option Nat) :=
  left.map (fun p => (p.1, some p.2, lookupVal right p.1)) ++
    (right.filter (fun p => decide (lookupVal left p.1 = none))).map
      (fun p => (p.1, none, some p.2))

/-- `clean_prop_df(tech_category, have_column, prop_df, groups)`: drop the rows
whose proportion is null (`~pl.col("prop").is_null()`) and keep key and
proportion. -/
def cleanPropDf {κ : Type} (l : List (κ × Option ℚ)) : List (κ × ℚ) :=
  l.filterMap (fun p => p.2.map (fun q => (p.1, q)))

/-- `create_prop_have_who_want_df`: restrict the join to rows with a non-null
have value, count by have key and by want key, full-join the two count dfs and
take `len_right / len` (null whenever either side is null), then clean. -/
def createPropHaveWhoWantDf (rows : List JRow) : List ((String × String) × ℚ) :=
  let f := rows.filter (fun j => !(decide (j.hv = none)))
  let haveCountDf := createHaveWantCountDf f haveKey
  let wantCountDf := createHaveWantCountDf f wantKey
  cleanPropDf ((joinHaveWantCountDfs haveCountDf wantCountDf).map
    (fun p => (p.1, match p.2.1, p.2.2 with
      | some n, some m => some ((m : ℚ) / (n : ℚ))
      | _, _ => none)))

/-- `create_prop_want_who_not_have_df`: restrict the join to rows with a
non-null want value, count by want key and by have key, full-join the two
count dfs and take `1 - len_right / len` (null whenever either side is null),
then clean. -/
def createPropWantWhoNotHaveDf (rows : List JRow) : List ((String × String) × ℚ) :=
  let f := rows.filter (fun j => !(decide (j.wt = none)))
  let wantCountDf := createHaveWantCountDf f wantKey
  let haveCountDf := createHaveWantCountDf f haveKey
  cleanPropDf ((joinHaveWantCountDfs wantCountDf haveCountDf).map
    (fun p => (p.1, match p.2.1, p.2.2 with
      | some n, some m => some (1 - (m : ℚ) / (n : ℚ))
      | _, _ => none)))

/-- The six entries of the `metrics` list of the app, in order:
"Number Have Worked With", "Proportion Have Worked With",
"Number Want To Work With", "Proportion Want To Work With",
"Proportion Have Who Want", "Proportion Want Who Do Not Have".
`create_plot_data` dispatches on substrings of these names; the dispatch
result is embedded directly. -/
inductive Metric where
  | numberHave
  | propHave
  | numberWant
  | propWant
  | propHaveWhoWant
  | propWantWhoNotHave
  deriving DecidableEq, Repr

/-- The `column` variable of `create_plot_data`: the have column when the
metric name contains "Have" ("Number/Proportion Have Worked With",
"Proportion Have Who Want"), the want column otherwise ("Number/Proportion
Want To Work With", "Proportion Want Who Do Not Have"). -/
def metricColumn : Metric → (JRow → Option String)
  | .numberHave => fun j => j.hv
  | .propHave => fun j => j.hv
  | .propHaveWhoWant => fun j => j.hv
  | .numberWant => fun j => j.wt
  | .propWant => fun j => j.wt
  | .propWantWhoNotHave => fun j => j.wt

/-- The `plot_data` of `create_plot_data` before the exclusion filter: counts
(cast to rationals for a uniform value type) or the requested proportion df,
keyed by `(token, group value)`. -/
def plotDataOf (g : Record → String) (recs : List Record) (m : Metric) :
    List ((String × String) × ℚ) :=
  let joined := createHaveWantDf g recs
  match m with
  | .numberHave => (createHaveWantCountDf joined haveKey).map (fun p => (p.1, (p.2 : ℚ)))
  | .numberWant => (createHaveWantCountDf joined wantKey).map (fun p => (p.1, (p.2 : ℚ)))
  | .propHave => createHaveWantPropDf joined haveKey none
  | .propWant => createHaveWantPropDf joined wantKey none
  | .propHaveWhoWant => createPropHaveWhoWantDf joined
  | .propWantWhoNotHave => createPropWantWhoNotHaveDf joined

/-- The token list `list(exclusion_df[tech_category])`: `exclusion_df` is
always `create_have_want_prop_df(tech_category, column, have_want_df,
exclusion_prop = exclusion_prop, clean = True)` — the ungrouped proportion df
of the metric's own `column`, over the same joined rows as the plot data. -/
def exclusionTokens (g : Record → String) (recs : List Record) (m : Metric)
    (θ : Option ℚ) : List String :=
  (createHaveWantPropDf (createHaveWantDf g recs) (fun j => metricColumn m j) θ).map
    (fun p => p.1)

/-- `create_plot_data(tech_category, metric, groups, exclusion_prop)` up to the
final `plot_data.filter(pl.col(tech_category).is_in(list(exclusion_df[tech_category])))`
(the heat-map pivot that follows in the grouped branch is reshaping only). -/
def createPlotData (g : Record → String) (recs : List Record) (m : Metric)
    (θ : Option ℚ) : List ((String × String) × ℚ) :=
  (plotDataOf g recs m).filter (fun p => decide (p.1.1 ∈ exclusionTokens g recs m θ))

/-- Scenario A of the spec: four respondents, have cells
`["Python;Go", "Go", null, "NA"]`, want cells `["Go", "Python", "Go", "Python"]`. -/
def scenarioA : List Record :=
  [⟨1, some "Python;Go", some "Go", ""⟩,
   ⟨2, some "Go", some "Python", ""⟩,
   ⟨3, none, some "Go", ""⟩,
   ⟨4, some "NA", some "Python", ""⟩]

/-- Number of occurrences of a token in a token list (multiplicity of a token
within one record's split cell). -/
def tokCount (l : List String) (t : String) : Nat :=
  l.countP (fun x => decide (x = t))

/-- Number of exploded rows with the given `ResponseId`, token and group value
(join-key multiplicity of one side of the full join). -/
def eCount (l : List ERow) (i : Nat) (t : String) (gv : String) : Nat :=
  l.countP (fun e => decide (e.rid = i ∧ e.tok = t ∧ e.grp = gv))

/-- The `have_want_df_filtered` of `create_prop_have_who_want_df`: joined rows
with a non-null have value (the universe of respondents who have used the
tech). -/
def haveUniverse (g : Record → String) (recs : List Record) : List JRow :=
  (createHaveWantDf g recs).filter (fun j => !(decide (j.hv = none)))

/-- The "number of haves" of `create_prop_have_who_want_df` at a key: rows of
the have universe grouped by `[have_column] + groups`. -/
def havesCount (g : Record → String) (recs : List Record) (k : String × String) : Nat :=
  (haveUniverse g recs).countP (fun j => decide (haveKey j = some k))

/-- The "number of wants who have" of `create_prop_have_who_want_df` at a key:
rows of the have universe grouped by `[want_column] + groups`. -/
def wantsAmongHavesCount (g : Record → String) (recs : List Record)
    (k : String × String) : Nat :=
  (haveUniverse g recs).countP (fun j => decide (wantKey j = some k))

/-- The `have_want_df_filtered` of `create_prop_want_who_not_have_df`: joined
rows with a non-null want value (the universe of respondents who want the
tech). -/
def wantUniverse (g : Record → String) (recs : List Record) : List JRow :=
  (createHaveWantDf g recs).filter (fun j => !(decide (j.wt = none)))

/-- The "number of wants" of `create_prop_want_who_not_have_df` at a key. -/
def wantsCount (g : Record → String) (recs : List Record) (k : String × String) : Nat :=
  (wantUniverse g recs).countP (fun j => decide (wantKey j = some k))

/-- The "number of wants who have" of `create_prop_want_who_not_have_df` at a
key. -/
def havesAmongWantsCount (g : Record → String) (recs : List Record)
    (k : String × String) : Nat :=
  (wantUniverse g recs).countP (fun j => decide (haveKey j = some k))

/-- Unconditional ungrouped proportion of a token for one column selector:
rows of the full join carrying the token in that column, over the
distinct-respondent denominator (the value column of the exclusion df). -/
def uncondProp (g : Record → String) (recs : List Record)
    (col : JRow → Option String) (t : String) : ℚ :=
  ((createHaveWantDf g recs).countP (fun j => decide (col j = some t)) : ℚ) /
    (nRespondents (createHaveWantDf g recs) : ℚ)

/-- Two respondents who both have technology "A" and both want technology "B":
the have-proportion of "A" and the want-proportion of "B" are 1, while the
have-proportion of "B" is 0. -/
def splitTokensData : List Record :=
  [⟨1, some "A", some "B", ""⟩, ⟨2, some "A", some "B", ""⟩]

/-- One respondent whose have cell lists "Go" twice and whose want cell is
null. -/
def duplicateTokenData : List Record :=
  [⟨1, some "Go;Go", none, ""⟩]

/-- One respondent who wants "Go" and has nothing. -/
def wantOnlyData : List Record :=
  [⟨1, none, some "Go", ""⟩]

/-- One respondent listing "Go" twice among haves and twice among wants: the
full join produces 2 x 2 rows for the key. -/
def duplicateBothData : List Record :=
  [⟨1, some "Go;Py;Go", some "Go;Go", ""⟩]

end Survey



namespace Rural

/-- An IEEE-754 double as polars computes with it, restricted to what the
claims need: a finite value (modelled exactly as a rational — the claims
concern division by zero, not rounding), the two infinities, and NaN. -/
inductive FVal where
  | fin (q : ℚ)
  | posInf
  | negInf
  | nan
  deriving DecidableEq, Repr

/-- Float division as polars performs it (IEEE 754): division by zero gives
NaN for a zero numerator and a signed infinity otherwise. -/
def fdiv (a b : ℚ) : FVal :=
  if b = 0 then (if a = 0 then .nan else if 0 < a then .posInf else .negInf)
  else .fin (a / b)

/-- One row of the rural-investments dataframe, restricted to the fields
`create_plot_data` reads: `State Code`, the grouping key (the `group_by`
columns, modelled as one key), `Investment Dollars` (float, possibly null),
`Number of Investments` (integer, possibly null), `Svi Status`. -/
structure InvRow where
  stateCode : String
  grp : String
  dollars : Option ℚ
  numInv : Option Int
  svi : String
  deriving DecidableEq, Repr

/-- One output row of `group_and_calc_data`: grouping key,
`Sum Investment Dollars`, summed `Number of Investments`, and
`Average Investment Dollars`. -/
structure AggRow where
  grp : String
  sumD : ℚ
  sumN : Int
  avg : FVal
  deriving DecidableEq, Repr

/-- `group_and_calc_data(df, group_by)`: per grouping key, the null-ignoring
sums of `Investment Dollars` and `Number of Investments` (polars `.sum()`
skips nulls and sums an all-null column to 0) and their quotient
`Average Investment Dollars` (float division, so a zero count gives
infinity or NaN, not null). -/
def groupAndCalcData (rows : List InvRow) : List AggRow :=
  ((rows.map (fun r => r.grp)).dedup).map (fun gk =>
    let grows := rows.filter (fun r => decide (r.grp = gk))
    let s := (grows.filterMap (fun r => r.dollars)).sum
    let n := (grows.filterMap (fun r => r.numInv)).sum
    ⟨gk, s, n, fdiv s (n : ℚ)⟩)

/-- Lookup of the aggregate row of a key (the `how = "left"` join of
`create_plot_data`; aggregate keys are pairwise distinct, so the first match
is the only one, and a miss is the all-null right side). -/
def lookupAgg (l : List AggRow) (gk : String) : Option AggRow :=
  l.find? (fun a => decide (a.grp = gk))

/-- One output row of `create_plot_data`: the full aggregate plus
`Prop Investment Dollars SVI` and `Prop Number of Investments SVI`. -/
structure PlotRow where
  grp : String
  sumD : ℚ
  sumN : Int
  avg : FVal
  propSumSvi : FVal
  propNumSvi : FVal
  deriving DecidableEq, Repr

/-- The state filter of `create_plot_data(df, group_by, state)`: the full
dataframe, or only the rows of one state when a state is given. -/
def stateData (rows : List InvRow) (state : Option String) : List InvRow :=
  match state with
  | none => rows
  | some s => rows.filter (fun r => decide (r.stateCode = s))

/-- The sub-population of `create_plot_data`: the state-filtered rows with
`Svi Status == "Socially Vulnerable"`. -/
def sviData (rows : List InvRow) (state : Option String) : List InvRow :=
  (stateData rows state).filter (fun r => decide (r.svi = "Socially Vulnerable"))

/-- The aggregation step of `create_plot_data`: aggregate the state-filtered
rows, left-join the aggregate of the socially vulnerable sub-population, and
derive the two SVI proportions with `.fill_null(0)`.  The division is null
exactly when the joined right side is null (the key has no sub-population
rows), and only then does `fill_null` substitute 0; a zero denominator with a
present sub-population gives infinity or NaN, which is not null. -/
def createPlotData (rows : List InvRow) (state : Option String) : List PlotRow :=
  let agg := groupAndCalcData (stateData rows state)
  let sub := groupAndCalcData (sviData rows state)
  agg.map (fun a =>
    match lookupAgg sub a.grp with
    | none => ⟨a.grp, a.sumD, a.sumN, a.avg, .fin 0, .fin 0⟩
    | some b => ⟨a.grp, a.sumD, a.sumN, a.avg, fdiv b.sumD a.sumD,
        fdiv (b.sumN : ℚ) (a.sumN : ℚ)⟩)

/-- One investment row whose `Number of Investments` is 0, so the group count
sums to 0. -/
def zeroCountData : List InvRow :=
  [⟨"s", "X", some 100, some 0, "Other"⟩]

/-- One socially vulnerable investment row with zero dollars and zero count:
the sub-population is present but both ratio denominators are 0. -/
def zeroSumSviData : List InvRow :=
  [⟨"s", "Y", some 0, some 0, "Socially Vulnerable"⟩]

/-- Two rows of one group realising Scenario C of the spec: sum 100, count 2,
sub-population sum 30, count 1. -/
def scenarioC : List InvRow :=
  [⟨"s", "X", some 70, some 1, "Other"⟩,
   ⟨"s", "X", some 30, some 1, "Socially Vulnerable"⟩]

/-- The plot row `create_plot_data` produces for Scenario C: sum 100, count 2,
average 50, SVI proportions 3/10 and 1/2. -/
def scenarioCRow : PlotRow :=
  ⟨"X", 100, 2, FVal.fin 50, FVal.fin ((3 : ℚ)/10), FVal.fin ((1 : ℚ)/2)⟩

/-- The sub-population aggregate row of Scenario C: sum 30, count 1. -/
def scenarioCSubRow : AggRow :=
  ⟨"X", 30, 1, FVal.fin 30⟩

end Rural

section ListHelpers

variable {α : Type} {β : Type}

/-- Auxiliary: the sum of a 0/1 indicator over a list counts the satisfying
elements. -/
theorem sum_map_indicator (l : List α) (p : α → Bool) :
    (l.map (fun a => if p a then (1 : Nat) else 0)).sum = l.countP p := by
  induction l with
  | nil => simp
  | cons a t ih => by_cases h : p a <;> simp [List.countP_cons, h, ih, Nat.add_comm]

/-- Auxiliary: a function pointwise below a 0/1 indicator sums to at most the
count of the indicator. -/
theorem sum_map_le_countP (l : List α) (f : α → Nat) (p : α → Bool)
    (h : ∀ a ∈ l, f a ≤ if p a then 1 else 0) :
    (l.map f).sum ≤ l.countP p := by
  have h2 := List.sum_le_sum h
  simpa [sum_map_indicator] using h2

/-- Auxiliary: when at most one list element satisfies `q` and `f` vanishes off
`q`, the sum of `f` is its value at any satisfying member. -/
theorem sum_map_eq_of_unique (l : List α) (f : α → Nat) (q : α → Bool) (a : α)
    (ha : a ∈ l) (hq : l.countP q ≤ 1) (haq : q a = true)
    (hz : ∀ x ∈ l, q x = false → f x = 0) :
    (l.map f).sum = f a := by
  induction l with
  | nil => cases ha
  | cons b t ih =>
      rw [List.countP_cons] at hq
      rcases List.mem_cons.mp ha with hab | hat
      · subst hab
        rw [haq] at hq
        simp only [if_true] at hq
        have hq0 : t.countP q = 0 := by omega
        have ht0 : (t.map f).sum = 0 := List.sum_eq_zero (by
          intro y hy
          rcases List.mem_map.mp hy with ⟨x, hx, rfl⟩
          have hx0 : q x = false := by
            have := List.countP_eq_zero.mp hq0 x hx
            simpa using this
          exact hz x (List.mem_cons_of_mem _ hx) hx0)
        simp [ht0]
      · have hqb : q b = false := by
          by_contra hqb
          have hqb' : q b = true := by simpa using hqb
          rw [hqb'] at hq
          simp only [if_true] at hq
          have hq0 : t.countP q = 0 := by omega
          have := List.countP_eq_zero.mp hq0 a hat
          simp [haq] at this
        have hfb : f b = 0 := hz b (List.mem_cons_self b t) hqb
        rw [hqb] at hq
        simp only [Bool.false_eq_true, if_false] at hq
        have := ih hat (by omega) (fun x hx hxf => hz x (List.mem_cons_of_mem _ hx) hxf)
        simp [hfb, this]

/-- Auxiliary: `find?` with an equality predicate finds the key itself. -/
theorem find?_decide_eq [DecidableEq β] (ks : List β) (k : β) :
    ks.find? (fun x => decide (x = k)) = if k ∈ ks then some k else none := by
  induction ks with
  | nil => simp
  | cons a t ih =>
      by_cases h : a = k
      · subst h
        rw [List.find?_cons_of_pos _ (by simp)]
        simp
      · rw [List.find?_cons_of_neg _ (by simp [h])]
        rw [ih]
        have hk : ¬k = a := fun hh => h hh.symm
        simp [List.mem_cons, hk]

/-- Auxiliary: `find?` over a key-value `map` mirrors `find?` over the keys. -/
theorem find?_map_pair [DecidableEq β] (ks : List β) (c : β → Nat) (k : β) :
    ((ks.map (fun x => (x, c x))).find? (fun p => decide (p.1 = k))) =
      (ks.find? (fun x => decide (x = k))).map (fun x => (x, c x)) := by
  induction ks with
  | nil => simp
  | cons a t ih =>
      by_cases h : a = k
      · subst h
        rw [List.map_cons, List.find?_cons_of_pos _ (by simp),
          List.find?_cons_of_pos _ (by simp)]
        simp
      · rw [List.map_cons, List.find?_cons_of_neg _ (by simp [h]),
          List.find?_cons_of_neg _ (by simp [h])]
        exact ih

/-- Auxiliary: the distinct values of a sublist are no more numerous than those
of the list. -/
theorem dedup_length_le_of_sublist [DecidableEq β] {l₁ l₂ : List β}
    (h : l₁.Sublist l₂) : l₁.dedup.length ≤ l₂.dedup.length := by
  rw [← List.card_toFinset, ← List.card_toFinset]
  refine Finset.card_le_card ?_
  intro b hb
  rw [List.mem_toFinset] at hb ⊢
  exact h.subset hb

/-- Auxiliary: a count of elements with at most one satisfying element per
fibre of `f` is at most the number of distinct `f`-values over the satisfying
elements. -/
theorem countP_le_dedup_length_filter [DecidableEq β] (l : List α) (f : α → β)
    (p : α → Bool)
    (h : ∀ b, l.countP (fun x => decide (f x = b) && p x) ≤ 1) :
    l.countP p ≤ (((l.filter p).map f).dedup).length := by
  induction l with
  | nil => simp
  | cons a t ih =>
      have ht : ∀ b, t.countP (fun x => decide (f x = b) && p x) ≤ 1 := by
        intro b
        refine le_trans ?_ (h b)
        rw [List.countP_cons]
        omega
      by_cases hp : p a
      · have hnot : f a ∉ (t.filter p).map f := by
          intro hmem
          rcases List.mem_map.mp hmem with ⟨x, hx, hfx⟩
          rcases List.mem_filter.mp hx with ⟨hxt, hpx⟩
          have := h (f a)
          rw [List.countP_cons] at this
          have hone : (if (decide (f a = f a) && p a) = true then 1 else 0) = 1 := by
            simp [hp]
          rw [hone] at this
          have hzero : t.countP (fun x => decide (f x = f a) && p x) = 0 := by omega
          have := List.countP_eq_zero.mp hzero x hxt
          simp [hfx, hpx] at this
        rw [List.countP_cons, List.filter_cons_of_pos hp, List.map_cons,
          List.dedup_cons_of_not_mem hnot]
        simp only [hp, if_true, List.length_cons]
        exact Nat.add_le_add_right (ih ht) 1
      · rw [List.countP_cons, List.filter_cons_of_neg (by simp [hp])]
        simp only [hp, Bool.false_eq_true, if_false, Nat.add_zero]
        exact ih ht

/-- Auxiliary: a count with at most one satisfying element per fibre of `f` is
at most the number of distinct `f`-values. -/
theorem countP_le_dedup_length [DecidableEq β] (l : List α) (f : α → β)
    (p : α → Bool)
    (h : ∀ b, l.countP (fun x => decide (f x = b) && p x) ≤ 1) :
    l.countP p ≤ ((l.map f).dedup).length :=
  le_trans (countP_le_dedup_length_filter l f p h)
    (dedup_length_le_of_sublist ((List.filter_sublist l).map f))

end ListHelpers

namespace Survey

/-- The have key determines the have token and the group value. -/
theorem haveKey_eq_some (j : JRow) (k : String × String) :
    haveKey j = some k ↔ j.hv = some k.1 ∧ j.grp = k.2 := by
  cases hj : j.hv <;> simp [haveKey, hj, Prod.ext_iff]

/-- The want key determines the want token and the group value. -/
theorem wantKey_eq_some (j : JRow) (k : String × String) :
    wantKey j = some k ↔ j.wt = some k.1 ∧ j.grp = k.2 := by
  cases hj : j.wt <;> simp [wantKey, hj, Prod.ext_iff]

/-- A key is listed by the count df exactly when some row carries it. -/
theorem mem_keys_iff {κ : Type} [DecidableEq κ] (rows : List JRow)
    (key : JRow → Option κ) (k : κ) :
    k ∈ (rows.filterMap key).dedup ↔
      0 < rows.countP (fun j => decide (key j = some k)) := by
  rw [List.mem_dedup, List.mem_filterMap, List.countP_pos_iff]
  constructor
  · rintro ⟨j, hj, hk⟩
    exact ⟨j, hj, by simp [hk]⟩
  · rintro ⟨j, hj, hk⟩
    exact ⟨j, hj, by simpa using hk⟩

/-- An entry of the count df carries the row count of its key, which is
positive. -/
theorem countDf_mem {κ : Type} [DecidableEq κ] (rows : List JRow)
    (key : JRow → Option κ) (p : κ × Nat)
    (hp : p ∈ createHaveWantCountDf rows key) :
    p.2 = rows.countP (fun j => decide (key j = some p.1)) ∧ 0 < p.2 := by
  rcases List.mem_map.mp hp with ⟨k, hk, rfl⟩
  exact ⟨rfl, (mem_keys_iff rows key k).mp hk⟩

/-- Every key carried by some row produces a count-df entry. -/
theorem countDf_mem_intro {κ : Type} [DecidableEq κ] (rows : List JRow)
    (key : JRow → Option κ) (k : κ)
    (h : 0 < rows.countP (fun j => decide (key j = some k))) :
    (k, rows.countP (fun j => decide (key j = some k))) ∈
      createHaveWantCountDf rows key :=
  List.mem_map.mpr ⟨k, (mem_keys_iff rows key k).mpr h, rfl⟩

/-- Looking a key up in a count df yields its row count, or null when no row
carries the key. -/
theorem lookupVal_countDf {κ : Type} [DecidableEq κ] (rows : List JRow)
    (key : JRow → Option κ) (k : κ) :
    lookupVal (createHaveWantCountDf rows key) k
      = if 0 < rows.countP (fun j => decide (key j = some k))
        then some (rows.countP (fun j => decide (key j = some k))) else none := by
  unfold lookupVal createHaveWantCountDf
  rw [find?_map_pair, find?_decide_eq]
  by_cases h : k ∈ (rows.filterMap key).dedup
  · rw [if_pos h, if_pos ((mem_keys_iff rows key k).mp h)]
    rfl
  · rw [if_neg h, if_neg (fun hc => h ((mem_keys_iff rows key k).mpr hc))]
    rfl

/-- Members of the have part are exactly the members of the blocks. -/
theorem mem_havePart {ws hs : List ERow} {j : JRow} :
    j ∈ havePart ws hs ↔ ∃ h ∈ hs, j ∈ hBlock ws h := by
  induction hs with
  | nil => simp [havePart]
  | cons h t ih =>
      simp only [havePart, List.mem_append, ih, List.mem_cons]
      constructor
      · rintro (hj | ⟨x, hx, hjx⟩)
        · exact ⟨h, Or.inl rfl, hj⟩
        · exact ⟨x, Or.inr hx, hjx⟩
      · rintro ⟨x, hx | hx, hjx⟩
        · subst hx
          exact Or.inl hjx
        · exact Or.inr ⟨x, hx, hjx⟩

/-- Field characterisation of the rows of one block. -/
theorem hBlock_fields {ws : List ERow} {h : ERow} {j : JRow} (hj : j ∈ hBlock ws h) :
    j.rid = h.rid ∧ j.hv = some h.tok ∧ j.grp = h.grp ∧
      (j.wt = none ∨ j.wt = some h.tok) := by
  unfold hBlock at hj
  by_cases hm : matchesOf ws h = []
  · rw [if_pos hm] at hj
    rcases List.mem_singleton.mp hj with rfl
    simp
  · rw [if_neg hm] at hj
    rcases List.mem_map.mp hj with ⟨w, hw, rfl⟩
    have hwtok : w.tok = h.tok := by
      have hkm := (List.mem_filter.mp hw).2
      unfold keyMatch at hkm
      simp only [decide_eq_true_eq] at hkm
      exact hkm.2.1
    simp [hwtok]

/-- Members of the want-only part. -/
theorem mem_wantOnlyPart {hs ws : List ERow} {j : JRow} :
    j ∈ wantOnlyPart hs ws ↔
      ∃ w ∈ ws, matchesOf hs w = [] ∧
        j = ⟨w.rid, none, some w.tok, w.grp⟩ := by
  unfold wantOnlyPart
  constructor
  · intro hj
    rcases List.mem_map.mp hj with ⟨w, hw, rfl⟩
    rcases List.mem_filter.mp hw with ⟨hws, hmw⟩
    exact ⟨w, hws, by simpa using hmw, rfl⟩
  · rintro ⟨w, hws, hmw, rfl⟩
    exact List.mem_map.mpr ⟨w, List.mem_filter.mpr ⟨hws, by simpa using hmw⟩, rfl⟩

/-- In any joined row both token columns, when non-null, carry the same token:
the full join is keyed on the token columns. -/
theorem joined_tokens_eq {hs ws : List ERow} {j : JRow}
    (hj : j ∈ havePart ws hs ++ wantOnlyPart hs ws) :
    ∀ a b, j.hv = some a → j.wt = some b → a = b := by
  intro a b hva hwb
  rcases List.mem_append.mp hj with hL | hR
  · rcases mem_havePart.mp hL with ⟨h, _, hb⟩
    rcases hBlock_fields hb with ⟨-, hhv, -, hwt⟩
    rcases hwt with hw | hw
    · rw [hw] at hwb
      cases hwb
    · rw [hhv] at hva
      rw [hw] at hwb
      cases hva
      cases hwb
      rfl
  · rcases mem_wantOnlyPart.mp hR with ⟨w, _, _, rfl⟩
    cases hva

/-- Specialisation of `joined_tokens_eq` to the joined df of the pipeline. -/
theorem joined_tokens_eq_df (g : Record → String) (recs : List Record) {j : JRow}
    (hj : j ∈ createHaveWantDf g recs) :
    ∀ a b, j.hv = some a → j.wt = some b → a = b :=
  joined_tokens_eq (by simpa [createHaveWantDf] using hj)

end Survey

namespace Survey

/-- The matches of a row are counted by `eCount` at its key. -/
theorem matchesOf_length (ws : List ERow) (h : ERow) :
    (matchesOf ws h).length = eCount ws h.rid h.tok h.grp := by
  unfold matchesOf eCount keyMatch
  rw [← List.countP_eq_length_filter]

/-- A row has no matches exactly when `eCount` vanishes at its key. -/
theorem matchesOf_eq_nil (l : List ERow) (e : ERow) :
    matchesOf l e = [] ↔ eCount l e.rid e.tok e.grp = 0 := by
  rw [← matchesOf_length, List.length_eq_zero]

/-- Rows of one block with a given `(id, have token, group)` key: all of the
block when the block's have-row carries the key (one row per match, or the
single unmatched row), none otherwise. -/
theorem hBlock_countP_have (ws : List ERow) (h : ERow) (i : Nat) (t gv : String) :
    (hBlock ws h).countP (fun j => decide (j.rid = i ∧ j.hv = some t ∧ j.grp = gv))
      = if h.rid = i ∧ h.tok = t ∧ h.grp = gv then max 1 (eCount ws i t gv) else 0 := by
  unfold hBlock
  by_cases hk : h.rid = i ∧ h.tok = t ∧ h.grp = gv
  · obtain ⟨h1, h2, h3⟩ := hk
    subst h1
    subst h2
    subst h3
    rw [if_pos (show h.rid = h.rid ∧ h.tok = h.tok ∧ h.grp = h.grp from ⟨rfl, rfl, rfl⟩)]
    by_cases hm : matchesOf ws h = []
    · rw [if_pos hm]
      have he0 : eCount ws h.rid h.tok h.grp = 0 := (matchesOf_eq_nil ws h).mp hm
      simp [he0, List.countP_cons]
    · rw [if_neg hm, List.countP_map]
      have hall : ∀ w ∈ matchesOf ws h,
          ((fun j => decide (j.rid = h.rid ∧ j.hv = some h.tok ∧ j.grp = h.grp)) ∘
            (fun w => (⟨h.rid, some h.tok, some w.tok, h.grp⟩ : JRow))) w = true := by
        intro w _
        simp
      rw [List.countP_eq_length.mpr hall, matchesOf_length]
      have hpos : 0 < eCount ws h.rid h.tok h.grp := by
        rw [← matchesOf_length]
        exact List.length_pos.mpr hm
      omega
  · rw [if_neg hk]
    by_cases hm : matchesOf ws h = []
    · rw [if_pos hm, List.countP_eq_zero]
      intro j hj
      rcases List.mem_singleton.mp hj with rfl
      simp only [decide_eq_true_eq]
      rintro ⟨ha, hb, hc⟩
      exact hk ⟨ha, Option.some.inj hb, hc⟩
    · rw [if_neg hm, List.countP_map, List.countP_eq_zero]
      intro w _
      simp only [Function.comp_apply, decide_eq_true_eq]
      rintro ⟨ha, hb, hc⟩
      exact hk ⟨ha, Option.some.inj hb, hc⟩

/-- Rows of one block with a given `(id, want token, group)` key: one per
match of the block's have-row when it carries the key, none otherwise. -/
theorem hBlock_countP_want (ws : List ERow) (h : ERow) (i : Nat) (t gv : String) :
    (hBlock ws h).countP (fun j => decide (j.rid = i ∧ j.wt = some t ∧ j.grp = gv))
      = if h.rid = i ∧ h.tok = t ∧ h.grp = gv then eCount ws i t gv else 0 := by
  unfold hBlock
  by_cases hk : h.rid = i ∧ h.tok = t ∧ h.grp = gv
  · obtain ⟨h1, h2, h3⟩ := hk
    subst h1
    subst h2
    subst h3
    rw [if_pos (show h.rid = h.rid ∧ h.tok = h.tok ∧ h.grp = h.grp from ⟨rfl, rfl, rfl⟩)]
    by_cases hm : matchesOf ws h = []
    · rw [if_pos hm]
      have he0 : eCount ws h.rid h.tok h.grp = 0 := (matchesOf_eq_nil ws h).mp hm
      rw [he0, List.countP_eq_zero]
      intro j hj
      rcases List.mem_singleton.mp hj with rfl
      simp
    · rw [if_neg hm, List.countP_map]
      have hall : ∀ w ∈ matchesOf ws h,
          ((fun j => decide (j.rid = h.rid ∧ j.wt = some h.tok ∧ j.grp = h.grp)) ∘
            (fun w => (⟨h.rid, some h.tok, some w.tok, h.grp⟩ : JRow))) w = true := by
        intro w hw
        have hkm := (List.mem_filter.mp hw).2
        unfold keyMatch at hkm
        simp only [decide_eq_true_eq] at hkm
        simp [hkm.2.1]
      rw [List.countP_eq_length.mpr hall, matchesOf_length]
  · rw [if_neg hk]
    by_cases hm : matchesOf ws h = []
    · rw [if_pos hm, List.countP_eq_zero]
      intro j hj
      rcases List.mem_singleton.mp hj with rfl
      simp
    · rw [if_neg hm, List.countP_map, List.countP_eq_zero]
      intro w hw
      have hkm := (List.mem_filter.mp hw).2
      unfold keyMatch at hkm
      simp only [decide_eq_true_eq] at hkm
      simp only [Function.comp_apply, decide_eq_true_eq]
      rintro ⟨ha, hb, hc⟩
      exact hk ⟨ha, by rw [← hkm.2.1]; exact Option.some.inj hb, hc⟩

/-- Rows of one block carrying a given key in both token columns: one per
match of the block's have-row when it carries the key, none otherwise. -/
theorem hBlock_countP_both (ws : List ERow) (h : ERow) (i : Nat) (t gv : String) :
    (hBlock ws h).countP
        (fun j => decide (j.rid = i ∧ j.hv = some t ∧ j.wt = some t ∧ j.grp = gv))
      = if h.rid = i ∧ h.tok = t ∧ h.grp = gv then eCount ws i t gv else 0 := by
  unfold hBlock
  by_cases hk : h.rid = i ∧ h.tok = t ∧ h.grp = gv
  · obtain ⟨h1, h2, h3⟩ := hk
    subst h1
    subst h2
    subst h3
    rw [if_pos (show h.rid = h.rid ∧ h.tok = h.tok ∧ h.grp = h.grp from ⟨rfl, rfl, rfl⟩)]
    by_cases hm : matchesOf ws h = []
    · rw [if_pos hm]
      have he0 : eCount ws h.rid h.tok h.grp = 0 := (matchesOf_eq_nil ws h).mp hm
      rw [he0, List.countP_eq_zero]
      intro j hj
      rcases List.mem_singleton.mp hj with rfl
      simp
    · rw [if_neg hm, List.countP_map]
      have hall : ∀ w ∈ matchesOf ws h,
          ((fun j => decide (j.rid = h.rid ∧ j.hv = some h.tok ∧
              j.wt = some h.tok ∧ j.grp = h.grp)) ∘
            (fun w => (⟨h.rid, some h.tok, some w.tok, h.grp⟩ : JRow))) w = true := by
        intro w hw
        have hkm := (List.mem_filter.mp hw).2
        unfold keyMatch at hkm
        simp only [decide_eq_true_eq] at hkm
        simp [hkm.2.1]
      rw [List.countP_eq_length.mpr hall, matchesOf_length]
  · rw [if_neg hk]
    by_cases hm : matchesOf ws h = []
    · rw [if_pos hm, List.countP_eq_zero]
      intro j hj
      rcases List.mem_singleton.mp hj with rfl
      simp
    · rw [if_neg hm, List.countP_map, List.countP_eq_zero]
      intro w _
      simp only [Function.comp_apply, decide_eq_true_eq]
      rintro ⟨ha, hb, -, hc⟩
      exact hk ⟨ha, Option.some.inj hb, hc⟩

/-- Have-keyed rows of the have part: every have-row with the key contributes
its matches, or itself when unmatched. -/
theorem havePart_countP_have (ws hs : List ERow) (i : Nat) (t gv : String) :
    (havePart ws hs).countP (fun j => decide (j.rid = i ∧ j.hv = some t ∧ j.grp = gv))
      = eCount hs i t gv * max 1 (eCount ws i t gv) := by
  induction hs with
  | nil => simp [havePart, eCount]
  | cons h hs ih =>
      show (hBlock ws h ++ havePart ws hs).countP _ = _
      rw [List.countP_append, ih, hBlock_countP_have]
      unfold eCount
      rw [List.countP_cons]
      by_cases hk : h.rid = i ∧ h.tok = t ∧ h.grp = gv
      · rw [if_pos hk, decide_eq_true hk]
        simp [Nat.add_mul, Nat.add_comm]
      · rw [if_neg hk, decide_eq_false hk]
        simp

/-- Want-keyed rows of the have part: every have-row with the key contributes
one row per match. -/
theorem havePart_countP_want (ws hs : List ERow) (i : Nat) (t gv : String) :
    (havePart ws hs).countP (fun j => decide (j.rid = i ∧ j.wt = some t ∧ j.grp = gv))
      = eCount hs i t gv * eCount ws i t gv := by
  induction hs with
  | nil => simp [havePart, eCount]
  | cons h hs ih =>
      show (hBlock ws h ++ havePart ws hs).countP _ = _
      rw [List.countP_append, ih, hBlock_countP_want]
      unfold eCount
      rw [List.countP_cons]
      by_cases hk : h.rid = i ∧ h.tok = t ∧ h.grp = gv
      · rw [if_pos hk, decide_eq_true hk]
        simp [Nat.add_mul, Nat.add_comm]
      · rw [if_neg hk, decide_eq_false hk]
        simp

/-- Both-keyed rows of the have part: the product of the two key
multiplicities — the Cartesian behaviour of the full join per key. -/
theorem havePart_countP_both (ws hs : List ERow) (i : Nat) (t gv : String) :
    (havePart ws hs).countP
        (fun j => decide (j.rid = i ∧ j.hv = some t ∧ j.wt = some t ∧ j.grp = gv))
      = eCount hs i t gv * eCount ws i t gv := by
  induction hs with
  | nil => simp [havePart, eCount]
  | cons h hs ih =>
      show (hBlock ws h ++ havePart ws hs).countP _ = _
      rw [List.countP_append, ih, hBlock_countP_both]
      unfold eCount
      rw [List.countP_cons]
      by_cases hk : h.rid = i ∧ h.tok = t ∧ h.grp = gv
      · rw [if_pos hk, decide_eq_true hk]
        simp [Nat.add_mul, Nat.add_comm]
      · rw [if_neg hk, decide_eq_false hk]
        simp

/-- The want-only part carries no non-null have value. -/
theorem wantOnlyPart_countP_have (hs ws : List ERow) (i : Nat) (t gv : String) :
    (wantOnlyPart hs ws).countP
        (fun j => decide (j.rid = i ∧ j.hv = some t ∧ j.grp = gv)) = 0 := by
  unfold wantOnlyPart
  rw [List.countP_map, List.countP_eq_zero]
  intro w _
  simp [Function.comp]

/-- The want-only part carries no row with both tokens non-null. -/
theorem wantOnlyPart_countP_both (hs ws : List ERow) (i : Nat) (t gv : String) :
    (wantOnlyPart hs ws).countP
        (fun j => decide (j.rid = i ∧ j.hv = some t ∧ j.wt = some t ∧ j.grp = gv))
      = 0 := by
  unfold wantOnlyPart
  rw [List.countP_map, List.countP_eq_zero]
  intro w _
  simp [Function.comp]

/-- Want-keyed rows of the want-only part: all want-rows with the key when the
key is absent from the have side, none otherwise. -/
theorem wantOnlyPart_countP_want (hs ws : List ERow) (i : Nat) (t gv : String) :
    (wantOnlyPart hs ws).countP
        (fun j => decide (j.rid = i ∧ j.wt = some t ∧ j.grp = gv))
      = if eCount hs i t gv = 0 then eCount ws i t gv else 0 := by
  unfold wantOnlyPart
  rw [List.countP_map, List.countP_filter]
  by_cases hh : eCount hs i t gv = 0
  · rw [if_pos hh]
    unfold eCount
    apply List.countP_congr
    intro w _
    simp only [Function.comp_apply, Bool.and_eq_true, decide_eq_true_eq]
    constructor
    · rintro ⟨⟨ha, hb, hc⟩, -⟩
      exact ⟨ha, Option.some.inj hb, hc⟩
    · rintro ⟨ha, hb, hc⟩
      refine ⟨⟨ha, by rw [hb], hc⟩, ?_⟩
      have hnil : matchesOf hs w = [] := by
        rw [matchesOf_eq_nil, ha, hb, hc]
        exact hh
      exact hnil
  · rw [if_neg hh, List.countP_eq_zero]
    intro w _
    simp only [Function.comp_apply, Bool.and_eq_true, decide_eq_true_eq]
    rintro ⟨⟨ha, hb, hc⟩, hnm⟩
    have : matchesOf hs w = [] := by simpa using hnm
    rw [matchesOf_eq_nil, ha, Option.some.inj hb, hc] at this
    exact hh this

/-- Have-keyed row count of the full join: multiplicity of the key on the have
side times the match count (at least one row per have-row). -/
theorem joined_countP_have (g : Record → String) (recs : List Record)
    (i : Nat) (t gv : String) :
    (createHaveWantDf g recs).countP
        (fun j => decide (j.rid = i ∧ j.hv = some t ∧ j.grp = gv))
      = eCount (explodeColumn g (fun r => r.hvF) recs) i t gv *
          max 1 (eCount (explodeColumn g (fun r => r.wtF) recs) i t gv) := by
  unfold createHaveWantDf
  rw [List.countP_append, havePart_countP_have, wantOnlyPart_countP_have]
  rw [Nat.add_zero]

/-- Want-keyed row count of the full join: multiplicity of the key on the want
side times the match count (at least one row per want-row). -/
theorem joined_countP_want (g : Record → String) (recs : List Record)
    (i : Nat) (t gv : String) :
    (createHaveWantDf g recs).countP
        (fun j => decide (j.rid = i ∧ j.wt = some t ∧ j.grp = gv))
      = eCount (explodeColumn g (fun r => r.wtF) recs) i t gv *
          max 1 (eCount (explodeColumn g (fun r => r.hvF) recs) i t gv) := by
  unfold createHaveWantDf
  rw [List.countP_append, havePart_countP_want, wantOnlyPart_countP_want]
  rcases Nat.eq_zero_or_pos (eCount (explodeColumn g (fun r => r.hvF) recs) i t gv)
    with h0 | hp
  · rw [h0, if_pos rfl]
    simp
  · rw [if_neg (by omega), max_eq_right hp, Nat.add_zero]
    exact Nat.mul_comm _ _

/-- Both-keyed row count of the full join: the product of the two side
multiplicities of the key. -/
theorem joined_countP_both (g : Record → String) (recs : List Record)
    (i : Nat) (t gv : String) :
    (createHaveWantDf g recs).countP
        (fun j => decide (j.rid = i ∧ j.hv = some t ∧ j.wt = some t ∧ j.grp = gv))
      = eCount (explodeColumn g (fun r => r.hvF) recs) i t gv *
          eCount (explodeColumn g (fun r => r.wtF) recs) i t gv := by
  unfold createHaveWantDf
  rw [List.countP_append, havePart_countP_both, wantOnlyPart_countP_both]
  rw [Nat.add_zero]

end Survey

namespace Survey

/-- Exploded-row multiplicity at a key, record by record: each record
contributes the multiplicity of the token in its cell when its id and group
value match, and nothing otherwise. -/
theorem eCount_explode (g : Record → String) (sel : Record → Option String)
    (recs : List Record) (i : Nat) (t gv : String) :
    eCount (explodeColumn g sel recs) i t gv
      = (recs.map (fun r =>
          if r.rid = i ∧ g r = gv then tokCount (recordTokens sel r) t else 0)).sum := by
  induction recs with
  | nil => simp [explodeColumn, eCount]
  | cons r rs ih =>
      show eCount ((recordTokens sel r).map (fun x => ⟨r.rid, x, g r⟩) ++
        explodeColumn g sel rs) i t gv = _
      unfold eCount at *
      rw [List.countP_append, List.countP_map, ih, List.map_cons, List.sum_cons]
      congr 1
      by_cases hr : r.rid = i ∧ g r = gv
      · rw [if_pos hr]
        unfold tokCount
        apply List.countP_congr
        intro x _
        simp [Function.comp, hr.1, hr.2]
      · rw [if_neg hr, List.countP_eq_zero]
        intro x _
        simp only [Function.comp_apply, decide_eq_true_eq]
        rintro ⟨ha, -, hc⟩
        exact hr ⟨ha, hc⟩

/-- With pairwise distinct record ids, at most one record carries a given id. -/
theorem nodup_countP_le_one (recs : List Record)
    (hid : (recs.map Record.rid).Nodup) (i : Nat) :
    recs.countP (fun r => decide (r.rid = i)) ≤ 1 := by
  induction recs with
  | nil => simp
  | cons r rs ih =>
      rw [List.map_cons, List.nodup_cons] at hid
      rw [List.countP_cons]
      by_cases h : r.rid = i
      · have h0 : rs.countP (fun x => decide (x.rid = i)) = 0 := by
          rw [List.countP_eq_zero]
          intro x hx
          simp only [decide_eq_true_eq]
          intro hxi
          exact hid.1 (List.mem_map.mpr ⟨x, hx, by rw [hxi, h]⟩)
        simp [h, h0]
      · simp only [h, decide_eq_false, Bool.false_eq_true, if_false, Nat.add_zero]
        exact ih hid.2

/-- With pairwise distinct ids and per-record token multiplicity at most one,
each side of the join carries each `(id, token, group)` key at most once. -/
theorem eCount_explode_le_one (g : Record → String) (sel : Record → Option String)
    (recs : List Record) (i : Nat) (t gv : String)
    (hid : (recs.map Record.rid).Nodup)
    (htok : ∀ r ∈ recs, tokCount (recordTokens sel r) t ≤ 1) :
    eCount (explodeColumn g sel recs) i t gv ≤ 1 := by
  rw [eCount_explode]
  refine le_trans (sum_map_le_countP recs _ (fun r => decide (r.rid = i)) ?_)
    (nodup_countP_le_one recs hid i)
  intro r hr
  by_cases h : r.rid = i ∧ g r = gv
  · simpa [h, h.1] using htok r hr
  · simp [h]

/-- With pairwise distinct ids, the exploded multiplicity of a record's own
`(id, token, group)` key is the token multiplicity of its cell. -/
theorem eCount_explode_eq_tokCount (g : Record → String)
    (sel : Record → Option String) (recs : List Record) (r : Record)
    (hr : r ∈ recs) (hid : (recs.map Record.rid).Nodup) (t : String) :
    eCount (explodeColumn g sel recs) r.rid t (g r)
      = tokCount (recordTokens sel r) t := by
  rw [eCount_explode]
  have h := sum_map_eq_of_unique recs
    (fun x => if x.rid = r.rid ∧ g x = g r then tokCount (recordTokens sel x) t else 0)
    (fun x => decide (x.rid = r.rid)) r hr (nodup_countP_le_one recs hid r.rid)
    (by simp)
    (by
      intro x _ hxf
      have hne : ¬x.rid = r.rid := by simpa using hxf
      show (if x.rid = r.rid ∧ g x = g r then tokCount (recordTokens sel x) t else 0) = 0
      rw [if_neg]
      rintro ⟨h1, -⟩
      exact hne h1)
  rw [h]
  simp

/-- Under unique ids and no duplicated token within a cell, the have-keyed
joined row count at any `(token, group)` key is at most the number of distinct
respondents. -/
theorem joined_have_le_nResp (g : Record → String) (recs : List Record)
    (t gv : String)
    (hid : (recs.map Record.rid).Nodup)
    (htokH : ∀ r ∈ recs, tokCount (recordTokens (fun x => x.hvF) r) t ≤ 1)
    (htokW : ∀ r ∈ recs, tokCount (recordTokens (fun x => x.wtF) r) t ≤ 1) :
    (createHaveWantDf g recs).countP (fun j => decide (j.hv = some t ∧ j.grp = gv))
      ≤ nRespondents (createHaveWantDf g recs) := by
  unfold nRespondents
  refine countP_le_dedup_length (createHaveWantDf g recs) (fun j => j.rid) _ ?_
  intro i
  have hconv : (createHaveWantDf g recs).countP
      (fun x => decide (x.rid = i) && decide (x.hv = some t ∧ x.grp = gv))
      = (createHaveWantDf g recs).countP
        (fun j => decide (j.rid = i ∧ j.hv = some t ∧ j.grp = gv)) := by
    apply List.countP_congr
    intro x _
    simp
  rw [hconv, joined_countP_have]
  have h1 := eCount_explode_le_one g (fun x => x.hvF) recs i t gv hid htokH
  have h2 := eCount_explode_le_one g (fun x => x.wtF) recs i t gv hid htokW
  have h3 : max 1 (eCount (explodeColumn g (fun r => r.wtF) recs) i t gv) ≤ 1 :=
    max_le le_rfl h2
  calc eCount (explodeColumn g (fun r => r.hvF) recs) i t gv *
        max 1 (eCount (explodeColumn g (fun r => r.wtF) recs) i t gv)
      ≤ 1 * 1 := Nat.mul_le_mul h1 h3
    _ = 1 := by simp

/-- Want-side analogue of `joined_have_le_nResp`. -/
theorem joined_want_le_nResp (g : Record → String) (recs : List Record)
    (t gv : String)
    (hid : (recs.map Record.rid).Nodup)
    (htokH : ∀ r ∈ recs, tokCount (recordTokens (fun x => x.hvF) r) t ≤ 1)
    (htokW : ∀ r ∈ recs, tokCount (recordTokens (fun x => x.wtF) r) t ≤ 1) :
    (createHaveWantDf g recs).countP (fun j => decide (j.wt = some t ∧ j.grp = gv))
      ≤ nRespondents (createHaveWantDf g recs) := by
  unfold nRespondents
  refine countP_le_dedup_length (createHaveWantDf g recs) (fun j => j.rid) _ ?_
  intro i
  have hconv : (createHaveWantDf g recs).countP
      (fun x => decide (x.rid = i) && decide (x.wt = some t ∧ x.grp = gv))
      = (createHaveWantDf g recs).countP
        (fun j => decide (j.rid = i ∧ j.wt = some t ∧ j.grp = gv)) := by
    apply List.countP_congr
    intro x _
    simp
  rw [hconv, joined_countP_want]
  have h1 := eCount_explode_le_one g (fun x => x.hvF) recs i t gv hid htokH
  have h2 := eCount_explode_le_one g (fun x => x.wtF) recs i t gv hid htokW
  have h3 : max 1 (eCount (explodeColumn g (fun r => r.hvF) recs) i t gv) ≤ 1 :=
    max_le le_rfl h1
  calc eCount (explodeColumn g (fun r => r.wtF) recs) i t gv *
        max 1 (eCount (explodeColumn g (fun r => r.hvF) recs) i t gv)
      ≤ 1 * 1 := Nat.mul_le_mul h2 h3
    _ = 1 := by simp

end Survey

namespace Survey

/-- The unfiltered proportion df is the count df with counts divided by the
distinct-respondent denominator. -/
theorem propDf_none {κ : Type} [DecidableEq κ] (rows : List JRow)
    (key : JRow → Option κ) :
    createHaveWantPropDf rows key none
      = (createHaveWantCountDf rows key).map
          (fun p => (p.1, (p.2 : ℚ) / (nRespondents rows : ℚ))) := rfl

/-- The thresholded proportion df filters the unfiltered one by
`prop >= exclusion_prop`. -/
theorem propDf_some {κ : Type} [DecidableEq κ] (rows : List JRow)
    (key : JRow → Option κ) (θ : ℚ) :
    createHaveWantPropDf rows key (some θ)
      = ((createHaveWantCountDf rows key).map
          (fun p => (p.1, (p.2 : ℚ) / (nRespondents rows : ℚ)))).filter
            (fun p => decide (θ ≤ p.2)) := rfl

/-- An entry of the unfiltered proportion df carries the count of its key over
the distinct-respondent denominator, and its key is carried by some row. -/
theorem propDf_mem {κ : Type} [DecidableEq κ] (rows : List JRow)
    (key : JRow → Option κ) (p : κ × ℚ)
    (hp : p ∈ createHaveWantPropDf rows key none) :
    p.2 = (rows.countP (fun j => decide (key j = some p.1)) : ℚ) /
        (nRespondents rows : ℚ) ∧
      0 < rows.countP (fun j => decide (key j = some p.1)) := by
  rw [propDf_none] at hp
  rcases List.mem_map.mp hp with ⟨q, hq, rfl⟩
  rcases countDf_mem rows key q hq with ⟨h1, h2⟩
  constructor
  · rw [← h1]
  · rw [← h1]
    exact h2

/-- Every key carried by some row produces an entry of the unfiltered
proportion df. -/
theorem propDf_mem_intro {κ : Type} [DecidableEq κ] (rows : List JRow)
    (key : JRow → Option κ) (k : κ)
    (h : 0 < rows.countP (fun j => decide (key j = some k))) :
    (k, (rows.countP (fun j => decide (key j = some k)) : ℚ) /
        (nRespondents rows : ℚ)) ∈ createHaveWantPropDf rows key none := by
  rw [propDf_none]
  exact List.mem_map.mpr ⟨_, countDf_mem_intro rows key k h, rfl⟩

/-- An entry of the Have-Who-Want df: both counts of its key over the
have-universe are positive, and the value is wants-among-haves over haves. -/
theorem hww_mem (rows : List JRow) (k : String × String) (v : ℚ)
    (h : (k, v) ∈ createPropHaveWhoWantDf rows) :
    0 < (rows.filter (fun j => !(decide (j.hv = none)))).countP
        (fun j => decide (haveKey j = some k)) ∧
    0 < (rows.filter (fun j => !(decide (j.hv = none)))).countP
        (fun j => decide (wantKey j = some k)) ∧
    v = ((rows.filter (fun j => !(decide (j.hv = none)))).countP
          (fun j => decide (wantKey j = some k)) : ℚ) /
        ((rows.filter (fun j => !(decide (j.hv = none)))).countP
          (fun j => decide (haveKey j = some k)) : ℚ) := by
  unfold createPropHaveWhoWantDf cleanPropDf at h
  rcases List.mem_filterMap.mp h with ⟨q, hq, hqv⟩
  rcases List.mem_map.mp hq with ⟨w3, hw3, rfl⟩
  rcases List.mem_append.mp hw3 with hL | hR
  · rcases List.mem_map.mp hL with ⟨pc, hpc, rfl⟩
    rcases countDf_mem _ _ pc hpc with ⟨hc1, hc2⟩
    rw [lookupVal_countDf] at hqv
    by_cases hw : 0 < (rows.filter (fun j => !(decide (j.hv = none)))).countP
        (fun j => decide (wantKey j = some pc.1))
    · rw [if_pos hw] at hqv
      have hqv2 : (pc.1, ((rows.filter (fun j => !(decide (j.hv = none)))).countP
            (fun j => decide (wantKey j = some pc.1)) : ℚ) / (pc.2 : ℚ)) = (k, v) := by
        simpa using hqv
      have hk : pc.1 = k := congrArg Prod.fst hqv2
      have hv : v = ((rows.filter (fun j => !(decide (j.hv = none)))).countP
            (fun j => decide (wantKey j = some pc.1)) : ℚ) / (pc.2 : ℚ) :=
        (congrArg Prod.snd hqv2).symm
      subst hk
      refine ⟨by rw [← hc1]; exact hc2, hw, ?_⟩
      rw [hv, hc1]
    · rw [if_neg hw] at hqv
      simp at hqv
  · rcases List.mem_map.mp hR with ⟨pc, hpc, rfl⟩
    simp at hqv

/-- Introduction rule for the Have-Who-Want df: any key with a positive
wants-among-haves count and a positive haves count produces the ratio entry. -/
theorem hww_mem_intro (rows : List JRow) (k : String × String)
    (hh : 0 < (rows.filter (fun j => !(decide (j.hv = none)))).countP
        (fun j => decide (haveKey j = some k)))
    (hw : 0 < (rows.filter (fun j => !(decide (j.hv = none)))).countP
        (fun j => decide (wantKey j = some k))) :
    (k, ((rows.filter (fun j => !(decide (j.hv = none)))).countP
          (fun j => decide (wantKey j = some k)) : ℚ) /
        ((rows.filter (fun j => !(decide (j.hv = none)))).countP
          (fun j => decide (haveKey j = some k)) : ℚ))
      ∈ createPropHaveWhoWantDf rows := by
  unfold createPropHaveWhoWantDf cleanPropDf
  apply List.mem_filterMap.mpr
  refine ⟨(k, some (((rows.filter (fun j => !(decide (j.hv = none)))).countP
      (fun j => decide (wantKey j = some k)) : ℚ) /
    ((rows.filter (fun j => !(decide (j.hv = none)))).countP
      (fun j => decide (haveKey j = some k)) : ℚ))), ?_, rfl⟩
  apply List.mem_map.mpr
  refine ⟨(k, some ((rows.filter (fun j => !(decide (j.hv = none)))).countP
      (fun j => decide (haveKey j = some k))),
    lookupVal (createHaveWantCountDf
      (rows.filter (fun j => !(decide (j.hv = none)))) wantKey) k), ?_, ?_⟩
  · exact List.mem_append.mpr (Or.inl (List.mem_map.mpr
      ⟨_, countDf_mem_intro _ haveKey k hh, rfl⟩))
  · rw [lookupVal_countDf, if_pos hw]

/-- An entry of the Want-Who-Not-Have df: both counts of its key over the
want-universe are positive, and the value is one minus haves-among-wants over
wants. -/
theorem wwnh_mem (rows : List JRow) (k : String × String) (v : ℚ)
    (h : (k, v) ∈ createPropWantWhoNotHaveDf rows) :
    0 < (rows.filter (fun j => !(decide (j.wt = none)))).countP
        (fun j => decide (wantKey j = some k)) ∧
    0 < (rows.filter (fun j => !(decide (j.wt = none)))).countP
        (fun j => decide (haveKey j = some k)) ∧
    v = 1 - ((rows.filter (fun j => !(decide (j.wt = none)))).countP
          (fun j => decide (haveKey j = some k)) : ℚ) /
        ((rows.filter (fun j => !(decide (j.wt = none)))).countP
          (fun j => decide (wantKey j = some k)) : ℚ) := by
  unfold createPropWantWhoNotHaveDf cleanPropDf at h
  rcases List.mem_filterMap.mp h with ⟨q, hq, hqv⟩
  rcases List.mem_map.mp hq with ⟨w3, hw3, rfl⟩
  rcases List.mem_append.mp hw3 with hL | hR
  · rcases List.mem_map.mp hL with ⟨pc, hpc, rfl⟩
    rcases countDf_mem _ _ pc hpc with ⟨hc1, hc2⟩
    rw [lookupVal_countDf] at hqv
    by_cases hw : 0 < (rows.filter (fun j => !(decide (j.wt = none)))).countP
        (fun j => decide (haveKey j = some pc.1))
    · rw [if_pos hw] at hqv
      have hqv2 : (pc.1, 1 - ((rows.filter (fun j => !(decide (j.wt = none)))).countP
            (fun j => decide (haveKey j = some pc.1)) : ℚ) / (pc.2 : ℚ)) = (k, v) := by
        simpa using hqv
      have hk : pc.1 = k := congrArg Prod.fst hqv2
      have hv : v = 1 - ((rows.filter (fun j => !(decide (j.wt = none)))).countP
            (fun j => decide (haveKey j = some pc.1)) : ℚ) / (pc.2 : ℚ) :=
        (congrArg Prod.snd hqv2).symm
      subst hk
      refine ⟨by rw [← hc1]; exact hc2, hw, ?_⟩
      rw [hv, hc1]
    · rw [if_neg hw] at hqv
      simp at hqv
  · rcases List.mem_map.mp hR with ⟨pc, hpc, rfl⟩
    simp at hqv

/-- Introduction rule for the Want-Who-Not-Have df: any key with positive
wants and haves-among-wants counts produces the entry. -/
theorem wwnh_mem_intro (rows : List JRow) (k : String × String)
    (hw : 0 < (rows.filter (fun j => !(decide (j.wt = none)))).countP
        (fun j => decide (wantKey j = some k)))
    (hh : 0 < (rows.filter (fun j => !(decide (j.wt = none)))).countP
        (fun j => decide (haveKey j = some k))) :
    (k, 1 - ((rows.filter (fun j => !(decide (j.wt = none)))).countP
          (fun j => decide (haveKey j = some k)) : ℚ) /
        ((rows.filter (fun j => !(decide (j.wt = none)))).countP
          (fun j => decide (wantKey j = some k)) : ℚ))
      ∈ createPropWantWhoNotHaveDf rows := by
  unfold createPropWantWhoNotHaveDf cleanPropDf
  apply List.mem_filterMap.mpr
  refine ⟨(k, some (1 - ((rows.filter (fun j => !(decide (j.wt = none)))).countP
      (fun j => decide (haveKey j = some k)) : ℚ) /
    ((rows.filter (fun j => !(decide (j.wt = none)))).countP
      (fun j => decide (wantKey j = some k)) : ℚ))), ?_, rfl⟩
  apply List.mem_map.mpr
  refine ⟨(k, some ((rows.filter (fun j => !(decide (j.wt = none)))).countP
      (fun j => decide (wantKey j = some k))),
    lookupVal (createHaveWantCountDf
      (rows.filter (fun j => !(decide (j.wt = none)))) haveKey) k), ?_, ?_⟩
  · exact List.mem_append.mpr (Or.inl (List.mem_map.mpr
      ⟨_, countDf_mem_intro _ wantKey k hw, rfl⟩))
  · rw [lookupVal_countDf, if_pos hh]

/-- Wants-among-haves never exceeds haves: a row of the have-universe whose
want key is `k` carries the same token in its have column, because the join is
keyed on the token columns. -/
theorem hww_counts_le (g : Record → String) (recs : List Record)
    (k : String × String) :
    wantsAmongHavesCount g recs k ≤ havesCount g recs k := by
  unfold wantsAmongHavesCount havesCount haveUniverse
  apply List.countP_mono_left
  intro j hj
  simp only [decide_eq_true_eq]
  intro hw
  rcases List.mem_filter.mp hj with ⟨hjm, hnn⟩
  cases hhv : j.hv with
  | none =>
      rw [hhv] at hnn
      simp at hnn
  | some a =>
      rw [wantKey_eq_some] at hw
      have hab := joined_tokens_eq_df g recs hjm a k.1 hhv hw.1
      rw [haveKey_eq_some, hhv, hab]
      exact ⟨rfl, hw.2⟩

/-- Haves-among-wants never exceeds wants, by the same token-key argument. -/
theorem wwnh_counts_le (g : Record → String) (recs : List Record)
    (k : String × String) :
    havesAmongWantsCount g recs k ≤ wantsCount g recs k := by
  unfold havesAmongWantsCount wantsCount wantUniverse
  apply List.countP_mono_left
  intro j hj
  simp only [decide_eq_true_eq]
  intro hh
  rcases List.mem_filter.mp hj with ⟨hjm, hnn⟩
  cases hwt : j.wt with
  | none =>
      rw [hwt] at hnn
      simp at hnn
  | some b =>
      rw [haveKey_eq_some] at hh
      have hab := joined_tokens_eq_df g recs hjm k.1 b hh.1 hwt
      rw [wantKey_eq_some, hwt, ← hab]
      exact ⟨rfl, hh.2⟩

/-- Quotients of counts with numerator at most denominator lie in `[0, 1]`
(with the rational convention that division by zero yields 0). -/
theorem ratio_bounds (a b : Nat) (h : a ≤ b) :
    0 ≤ (a : ℚ) / (b : ℚ) ∧ (a : ℚ) / (b : ℚ) ≤ 1 := by
  constructor
  · positivity
  · rcases Nat.eq_zero_or_pos b with h0 | hp
    · subst h0
      simp
    · rw [div_le_one (by exact_mod_cast hp)]
      exact_mod_cast h

/-- A count positive on a filtered list is positive on the list. -/
theorem countP_pos_of_filter {l : List JRow} {p q : JRow → Bool}
    (h : 0 < (l.filter q).countP p) : 0 < l.countP p := by
  rcases List.countP_pos_iff.mp h with ⟨j, hj, hpj⟩
  exact List.countP_pos_iff.mpr ⟨j, List.mem_of_mem_filter hj, hpj⟩

/-- A positive have-keyed count gives a positive have-column count. -/
theorem countP_pos_have_col {l : List JRow} {k : String × String}
    (hp : 0 < l.countP (fun j => decide (haveKey j = some k))) :
    0 < l.countP (fun j => decide (j.hv = some k.1)) := by
  rcases List.countP_pos_iff.mp hp with ⟨j, hj, hdj⟩
  refine List.countP_pos_iff.mpr ⟨j, hj, ?_⟩
  simp only [decide_eq_true_eq] at hdj ⊢
  exact ((haveKey_eq_some j k).mp hdj).1

/-- A positive want-keyed count gives a positive want-column count. -/
theorem countP_pos_want_col {l : List JRow} {k : String × String}
    (hp : 0 < l.countP (fun j => decide (wantKey j = some k))) :
    0 < l.countP (fun j => decide (j.wt = some k.1)) := by
  rcases List.countP_pos_iff.mp hp with ⟨j, hj, hdj⟩
  refine List.countP_pos_iff.mpr ⟨j, hj, ?_⟩
  simp only [decide_eq_true_eq] at hdj ⊢
  exact ((wantKey_eq_some j k).mp hdj).1

/-- Every plot-data key token is carried, in the metric's own column, by some
joined row. -/
theorem plot_token_pos (g : Record → String) (recs : List Record) (m : Metric)
    (k : String × String) (v : ℚ) (h : (k, v) ∈ plotDataOf g recs m) :
    0 < (createHaveWantDf g recs).countP
        (fun j => decide (metricColumn m j = some k.1)) := by
  cases m with
  | numberHave =>
      unfold plotDataOf at h
      rcases List.mem_map.mp h with ⟨q, hq, heq⟩
      have hk : q.1 = k := congrArg Prod.fst heq
      rcases countDf_mem _ haveKey q hq with ⟨h1, h2⟩
      rw [h1, hk] at h2
      exact countP_pos_have_col h2
  | propHave =>
      unfold plotDataOf at h
      rcases propDf_mem _ haveKey (k, v) h with ⟨-, h2⟩
      exact countP_pos_have_col h2
  | numberWant =>
      unfold plotDataOf at h
      rcases List.mem_map.mp h with ⟨q, hq, heq⟩
      have hk : q.1 = k := congrArg Prod.fst heq
      rcases countDf_mem _ wantKey q hq with ⟨h1, h2⟩
      rw [h1, hk] at h2
      exact countP_pos_want_col h2
  | propWant =>
      unfold plotDataOf at h
      rcases propDf_mem _ wantKey (k, v) h with ⟨-, h2⟩
      exact countP_pos_want_col h2
  | propHaveWhoWant =>
      unfold plotDataOf at h
      rcases hww_mem _ k v h with ⟨h1, -, -⟩
      exact countP_pos_have_col (countP_pos_of_filter h1)
  | propWantWhoNotHave =>
      unfold plotDataOf at h
      rcases wwnh_mem _ k v h with ⟨h1, -, -⟩
      exact countP_pos_want_col (countP_pos_of_filter h1)

end Survey

namespace Survey

/-- Without a threshold the exclusion token list is exactly the distinct
tokens of the metric's own column across the joined rows. -/
theorem exclusionTokens_none (g : Record → String) (recs : List Record)
    (m : Metric) :
    exclusionTokens g recs m none
      = ((createHaveWantDf g recs).filterMap (fun j => metricColumn m j)).dedup := by
  unfold exclusionTokens
  rw [propDf_none]
  unfold createHaveWantCountDf
  simp only [List.map_map]
  exact List.map_id'' (fun x => rfl) _

/-- With a threshold, a token is retained by the exclusion df exactly when
some joined row carries it in the metric's own column and its unconditional
ungrouped proportion meets the threshold. -/
theorem mem_exclusionTokens_some (g : Record → String) (recs : List Record)
    (m : Metric) (θ : ℚ) (t : String) :
    t ∈ exclusionTokens g recs m (some θ) ↔
      (0 < (createHaveWantDf g recs).countP
          (fun j => decide (metricColumn m j = some t)) ∧
        θ ≤ uncondProp g recs (metricColumn m) t) := by
  unfold exclusionTokens
  rw [propDf_some]
  constructor
  · intro ht
    rcases List.mem_map.mp ht with ⟨p, hp, rfl⟩
    rcases List.mem_filter.mp hp with ⟨hp2, hθ⟩
    have hp3 : p ∈ createHaveWantPropDf (createHaveWantDf g recs)
        (fun j => metricColumn m j) none := by
      rw [propDf_none]
      exact hp2
    rcases propDf_mem _ _ p hp3 with ⟨h1, h2⟩
    refine ⟨h2, ?_⟩
    have hle : θ ≤ p.2 := by simpa using hθ
    rw [h1] at hle
    exact hle
  · rintro ⟨hpos, hθ⟩
    apply List.mem_map.mpr
    refine ⟨(t, uncondProp g recs (metricColumn m) t), ?_, rfl⟩
    apply List.mem_filter.mpr
    constructor
    · have hm := propDf_mem_intro (createHaveWantDf g recs)
        (fun j => metricColumn m j) t hpos
      rw [propDf_none] at hm
      exact hm
    · simpa using hθ

/-- A list without duplicates carries each token at most once. -/
theorem tokCount_le_one_of_nodup (l : List String) (hl : l.Nodup) (t : String) :
    tokCount l t ≤ 1 := by
  unfold tokCount
  induction l with
  | nil => simp
  | cons a l ih =>
      rw [List.nodup_cons] at hl
      rw [List.countP_cons]
      by_cases h : a = t
      · subst h
        have h0 : l.countP (fun x => decide (x = a)) = 0 := by
          rw [List.countP_eq_zero]
          intro x hx
          simp only [decide_eq_true_eq]
          intro hxa
          exact hl.1 (hxa ▸ hx)
        simp [h0]
      · simp only [h, decide_eq_false, Bool.false_eq_true, if_false, Nat.add_zero]
        exact ih hl.2

end Survey

namespace Rural

/-- Every aggregate row's average is the float quotient of its sums. -/
theorem aggRow_avg (rows : List InvRow) (a : AggRow)
    (ha : a ∈ groupAndCalcData rows) :
    a.avg = fdiv a.sumD (a.sumN : ℚ) := by
  unfold groupAndCalcData at ha
  rcases List.mem_map.mp ha with ⟨gk, -, rfl⟩
  rfl

/-- Float division with a non-zero denominator is exact division. -/
theorem fdiv_ne_zero (x y : ℚ) (hy : y ≠ 0) : fdiv x y = FVal.fin (x / y) := by
  unfold fdiv
  rw [if_neg hy]

end Rural

namespace Survey

/-- Claim C1 is false as stated: with threshold 1/2 on `splitTokensData`, the
Count-Have request retains token set {"A"} while the Proportion-Want request
retains {"B"} — the retained sets differ across metric kinds, and "B" is
retained although its unconditional have-proportion (0) is below the
threshold: the exclusion set follows the metric's own column, not always the
have-proportion. -/
theorem claim_C1_counterexample :
    ((createPlotData noGroups splitTokensData .numberHave (some ((1 : ℚ)/2))).map
        (fun p => p.1.1) = ["A"]) ∧
    ((createPlotData noGroups splitTokensData .propWant (some ((1 : ℚ)/2))).map
        (fun p => p.1.1) = ["B"]) ∧
    ¬ ((1 : ℚ)/2 ≤
        ((createHaveWantDf noGroups splitTokensData).countP
            (fun j => decide (j.hv = some "B")) : ℚ) /
          (nRespondents (createHaveWantDf noGroups splitTokensData) : ℚ)) := by
  with_unfolding_all decide

/-- Claim C2 is false as stated: on `duplicateTokenData` (one respondent whose
have cell lists "Go" twice) the Proportion-Have result for "Go" is 2, outside
[0,1] — explosion multiplicity makes the per-token row count exceed the
distinct-respondent denominator. -/
theorem claim_C2_counterexample :
    ((("Go", ""), (2 : ℚ)) ∈ plotDataOf noGroups duplicateTokenData .propHave) ∧
    ¬ ((2 : ℚ) ≤ 1) := by
  with_unfolding_all decide

/-- Claim C3 is false as stated: on `wantOnlyData` the token "Go" is wanted
(one non-null want row) but nobody has it, and the Want-Who-Not-Have output is
empty — the row is missing (its null proportion is dropped by
`clean_prop_df`), not present with value 1. -/
theorem claim_C3_counterexample :
    (0 < (createHaveWantDf noGroups wantOnlyData).countP
        (fun j => decide (wantKey j = some ("Go", "")))) ∧
    plotDataOf noGroups wantOnlyData .propWantWhoNotHave = [] := by
  with_unfolding_all decide

/-- Claim C5: on Scenario A the unconditional denominator is the number of
distinct respondent ids in the full have/want join, 4 (not the 2 ids of the
exploded have side alone), and Proportion-Have("Go") = 2/4 = 1/2. -/
theorem claim_C5 :
    nRespondents (createHaveWantDf noGroups scenarioA) = 4 ∧
    ((createHaveWantDf noGroups scenarioA).countP
        (fun j => decide (haveKey j = some ("Go", "")))) = 2 ∧
    ((("Go", ""), (1 : ℚ)/2) ∈ plotDataOf noGroups scenarioA .propHave) ∧
    ((explodeColumn noGroups (fun r => r.hvF) scenarioA).map (fun e => e.rid)).dedup.length
      = 2 := by
  with_unfolding_all decide

/-- Claim C8 is false as stated: a record whose have cell is `"A;"` yields an
exploded row with the empty-string token — the split keeps empty fragments and
no non-empty filter exists in `explode_column`. -/
theorem claim_C8_counterexample :
    (⟨1, "", ""⟩ : ERow) ∈
      explodeColumn noGroups (fun r => r.hvF) [⟨1, some "A;", none, ""⟩] := by
  with_unfolding_all decide

end Survey

namespace Rural

/-- Claim C4 is false as stated: on `zeroCountData` the group count is 0 and
the average is positive infinity, not 0; on `zeroSumSviData` the sub-population
is present with a zero denominator and `subPropSum` is NaN, not 0
(`fill_null(0)` replaces only null, and IEEE division by zero is inf/NaN). -/
theorem claim_C4_counterexample :
    ((createPlotData zeroCountData none).map (fun p => p.avg) = [FVal.posInf]) ∧
    ((createPlotData zeroSumSviData none).map (fun p => p.propSumSvi) = [FVal.nan]) ∧
    FVal.posInf ≠ FVal.fin 0 ∧ FVal.nan ≠ FVal.fin 0 := by
  with_unfolding_all decide

end Rural

namespace Survey

/-- Claim C1, amended: for every request with an exclusion threshold, the
retained rows are exactly the metric's own rows whose token's unconditional
ungrouped proportion for the metric's own column — the have column for Have
metrics, the want column for Want metrics and Want-Who-Do-Not-Have — meets or
exceeds the threshold; the exclusion universe therefore agrees between metrics
of the same column (for example Count-Have and Proportion-Have), not between
all metric kinds. -/
theorem claim_C1_amended (g : Record → String) (recs : List Record) (m : Metric)
    (θ : ℚ) (k : String × String) (v : ℚ) :
    (k, v) ∈ createPlotData g recs m (some θ) ↔
      ((k, v) ∈ plotDataOf g recs m ∧
        θ ≤ uncondProp g recs (metricColumn m) k.1) := by
  unfold createPlotData
  rw [List.mem_filter]
  constructor
  · rintro ⟨hmem, hexc⟩
    have ht : k.1 ∈ exclusionTokens g recs m (some θ) := by simpa using hexc
    rcases (mem_exclusionTokens_some g recs m θ k.1).mp ht with ⟨-, hθ⟩
    exact ⟨hmem, hθ⟩
  · rintro ⟨hmem, hθ⟩
    refine ⟨hmem, ?_⟩
    have hpos := plot_token_pos g recs m k v hmem
    have ht : k.1 ∈ exclusionTokens g recs m (some θ) :=
      (mem_exclusionTokens_some g recs m θ k.1).mpr ⟨hpos, hθ⟩
    simpa using ht

/-- Witness for claim C1, amended: on `splitTokensData` with threshold 1/2,
the Count-Have row of "A" is retained. -/
theorem claim_C1_amended_witness :
    ((("A", ""), (2 : ℚ)) ∈
      createPlotData noGroups splitTokensData .numberHave (some ((1 : ℚ)/2))) :=
  (claim_C1_amended noGroups splitTokensData .numberHave ((1 : ℚ)/2) ("A", "") 2).mpr
    ⟨by with_unfolding_all decide, by with_unfolding_all decide⟩

/-- Claim C2, amended: Have-Who-Want and Want-Who-Not-Have values always lie
in [0,1], with no hypothesis on the dataset — multi-token records included;
Proportion-Have and Proportion-Want values lie in [0,1] provided record ids
are unique and no record lists the same token more than once in a field
(without that proviso the counterexample shows values above 1). -/
theorem claim_C2_amended (g : Record → String) (recs : List Record) :
    (∀ m, (m = Metric.propHaveWhoWant ∨ m = Metric.propWantWhoNotHave) →
      ∀ k v, (k, v) ∈ plotDataOf g recs m → 0 ≤ v ∧ v ≤ 1) ∧
    ((recs.map Record.rid).Nodup →
      (∀ r ∈ recs, (recordTokens (fun x => x.hvF) r).Nodup ∧
        (recordTokens (fun x => x.wtF) r).Nodup) →
      ∀ m, (m = Metric.propHave ∨ m = Metric.propWant) →
        ∀ k v, (k, v) ∈ plotDataOf g recs m → 0 ≤ v ∧ v ≤ 1) := by
  constructor
  · intro m hm k v hkv
    rcases hm with rfl | rfl
    · unfold plotDataOf at hkv
      rcases hww_mem _ k v hkv with ⟨-, -, hv⟩
      have hv2 : v = (wantsAmongHavesCount g recs k : ℚ) /
          (havesCount g recs k : ℚ) := hv
      rw [hv2]
      exact ratio_bounds _ _ (hww_counts_le g recs k)
    · unfold plotDataOf at hkv
      rcases wwnh_mem _ k v hkv with ⟨-, -, hv⟩
      have hv2 : v = 1 - (havesAmongWantsCount g recs k : ℚ) /
          (wantsCount g recs k : ℚ) := hv
      rw [hv2]
      have hb := ratio_bounds (havesAmongWantsCount g recs k) (wantsCount g recs k)
        (wwnh_counts_le g recs k)
      constructor
      · linarith [hb.2]
      · linarith [hb.1]
  · intro hid htok m hm k v hkv
    rcases hm with rfl | rfl
    · unfold plotDataOf at hkv
      rcases propDf_mem _ haveKey (k, v) hkv with ⟨h1, -⟩
      have hconv : (createHaveWantDf g recs).countP
          (fun j => decide (haveKey j = some k))
          = (createHaveWantDf g recs).countP
            (fun j => decide (j.hv = some k.1 ∧ j.grp = k.2)) := by
        apply List.countP_congr
        intro j _
        simp [haveKey_eq_some]
      have h1v : v = ((createHaveWantDf g recs).countP
          (fun j => decide (haveKey j = some k)) : ℚ) /
          (nRespondents (createHaveWantDf g recs) : ℚ) := h1
      rw [h1v, hconv]
      exact ratio_bounds _ _ (joined_have_le_nResp g recs k.1 k.2 hid
        (fun r hr => tokCount_le_one_of_nodup _ (htok r hr).1 k.1)
        (fun r hr => tokCount_le_one_of_nodup _ (htok r hr).2 k.1))
    · unfold plotDataOf at hkv
      rcases propDf_mem _ wantKey (k, v) hkv with ⟨h1, -⟩
      have hconv : (createHaveWantDf g recs).countP
          (fun j => decide (wantKey j = some k))
          = (createHaveWantDf g recs).countP
            (fun j => decide (j.wt = some k.1 ∧ j.grp = k.2)) := by
        apply List.countP_congr
        intro j _
        simp [wantKey_eq_some]
      have h1v : v = ((createHaveWantDf g recs).countP
          (fun j => decide (wantKey j = some k)) : ℚ) /
          (nRespondents (createHaveWantDf g recs) : ℚ) := h1
      rw [h1v, hconv]
      exact ratio_bounds _ _ (joined_want_le_nResp g recs k.1 k.2 hid
        (fun r hr => tokCount_le_one_of_nodup _ (htok r hr).1 k.1)
        (fun r hr => tokCount_le_one_of_nodup _ (htok r hr).2 k.1))

/-- Witness for claim C2, amended: the unconditional part bounds the
Have-Who-Want value 1/2 of "Go" on Scenario A (no hypotheses), and the
conditional part bounds its Proportion-Have value 1/2 after discharging the
unique-id and no-duplicate-token hypotheses. -/
theorem claim_C2_amended_witness :
    (scenarioA.map Record.rid).Nodup ∧
    ((("Go", ""), (1 : ℚ)/2) ∈ plotDataOf noGroups scenarioA .propHaveWhoWant) ∧
    (0 ≤ (1 : ℚ)/2 ∧ (1 : ℚ)/2 ≤ 1) ∧
    ((("Go", ""), (1 : ℚ)/2) ∈ plotDataOf noGroups scenarioA .propHave) ∧
    (0 ≤ (1 : ℚ)/2 ∧ (1 : ℚ)/2 ≤ 1) :=
  ⟨by with_unfolding_all decide, by with_unfolding_all decide,
    (claim_C2_amended noGroups scenarioA).1 .propHaveWhoWant (Or.inl rfl)
      ("Go", "") ((1 : ℚ)/2) (by with_unfolding_all decide),
    by with_unfolding_all decide,
    (claim_C2_amended noGroups scenarioA).2 (by with_unfolding_all decide)
      (by with_unfolding_all decide) .propHave (Or.inl rfl) ("Go", "") ((1 : ℚ)/2)
      (by with_unfolding_all decide)⟩

/-- Claim C3, amended: for every key wanted by some respondents of whom at
least one also has the token, the Want-Who-Not-Have output contains the row
`1 - haves-among-wants / wants`; a wanted token that nobody has produces no
row at all (its null proportion is dropped by `clean_prop_df`), not the value
1 — that is the part the counterexample removes from the original claim. -/
theorem claim_C3_amended (g : Record → String) (recs : List Record)
    (k : String × String) (h : 0 < havesAmongWantsCount g recs k) :
    (k, 1 - (havesAmongWantsCount g recs k : ℚ) / (wantsCount g recs k : ℚ))
      ∈ plotDataOf g recs .propWantWhoNotHave := by
  have hw : 0 < wantsCount g recs k := lt_of_lt_of_le h (wwnh_counts_le g recs k)
  unfold plotDataOf
  exact wwnh_mem_intro _ k hw h

/-- Witness for claim C3, amended: Scenario A's "Go" is wanted by two
respondents of whom one has it, and the output carries 1 - 1/2. -/
theorem claim_C3_amended_witness :
    0 < havesAmongWantsCount noGroups scenarioA ("Go", "") ∧
    (("Go", ""), 1 - (havesAmongWantsCount noGroups scenarioA ("Go", "") : ℚ) /
        (wantsCount noGroups scenarioA ("Go", "") : ℚ))
      ∈ plotDataOf noGroups scenarioA .propWantWhoNotHave :=
  ⟨by with_unfolding_all decide,
    claim_C3_amended noGroups scenarioA ("Go", "") (by with_unfolding_all decide)⟩

/-- Claim C6: Have-Who-Want restricts the join to non-null have rows, counts
haves by have key and haves-who-also-want by want key, and outputs
wants-among-haves over haves for every key with at least one want-among-have
row; Scenario B (haves of "Go" are two respondents, one of whom also wants it)
yields 1/2 through the witness. -/
theorem claim_C6 (g : Record → String) (recs : List Record)
    (k : String × String) (h : 0 < wantsAmongHavesCount g recs k) :
    (k, (wantsAmongHavesCount g recs k : ℚ) / (havesCount g recs k : ℚ))
      ∈ plotDataOf g recs .propHaveWhoWant := by
  have hh : 0 < havesCount g recs k := lt_of_lt_of_le h (hww_counts_le g recs k)
  unfold plotDataOf
  exact hww_mem_intro _ k hh h

/-- Witness for claim C6 — Scenario B on Scenario A's data: haves of "Go" are
{R1, R2}, R1 also wants it, and the output value is 1/2 = 1/2. -/
theorem claim_C6_witness :
    0 < wantsAmongHavesCount noGroups scenarioA ("Go", "") ∧
    wantsAmongHavesCount noGroups scenarioA ("Go", "") = 1 ∧
    havesCount noGroups scenarioA ("Go", "") = 2 ∧
    (("Go", ""), (wantsAmongHavesCount noGroups scenarioA ("Go", "") : ℚ) /
        (havesCount noGroups scenarioA ("Go", "") : ℚ))
      ∈ plotDataOf noGroups scenarioA .propHaveWhoWant :=
  ⟨by with_unfolding_all decide, by with_unfolding_all decide,
    by with_unfolding_all decide,
    claim_C6 noGroups scenarioA ("Go", "") (by with_unfolding_all decide)⟩

/-- Claim C7: every exploded have-row and every exploded want-row appears in
the joined output at least once (with its id, token and group value), and no
joined row has both token columns null. -/
theorem claim_C7 (g : Record → String) (recs : List Record) :
    (∀ h ∈ explodeColumn g (fun r => r.hvF) recs,
      ∃ j ∈ createHaveWantDf g recs,
        j.rid = h.rid ∧ j.hv = some h.tok ∧ j.grp = h.grp) ∧
    (∀ w ∈ explodeColumn g (fun r => r.wtF) recs,
      ∃ j ∈ createHaveWantDf g recs,
        j.rid = w.rid ∧ j.wt = some w.tok ∧ j.grp = w.grp) ∧
    (∀ j ∈ createHaveWantDf g recs, ¬(j.hv = none ∧ j.wt = none)) := by
  refine ⟨?_, ?_, ?_⟩
  · intro h hh
    by_cases hm : matchesOf (explodeColumn g (fun r => r.wtF) recs) h = []
    · refine ⟨⟨h.rid, some h.tok, none, h.grp⟩, ?_, rfl, rfl, rfl⟩
      apply List.mem_append.mpr
      refine Or.inl (mem_havePart.mpr ⟨h, hh, ?_⟩)
      unfold hBlock
      rw [if_pos hm]
      exact List.mem_singleton.mpr rfl
    · rcases List.exists_mem_of_ne_nil _ hm with ⟨w, hw⟩
      refine ⟨⟨h.rid, some h.tok, some w.tok, h.grp⟩, ?_, rfl, rfl, rfl⟩
      apply List.mem_append.mpr
      refine Or.inl (mem_havePart.mpr ⟨h, hh, ?_⟩)
      unfold hBlock
      rw [if_neg hm]
      exact List.mem_map.mpr ⟨w, hw, rfl⟩
  · intro w hw
    by_cases hm : matchesOf (explodeColumn g (fun r => r.hvF) recs) w = []
    · refine ⟨⟨w.rid, none, some w.tok, w.grp⟩, ?_, rfl, rfl, rfl⟩
      apply List.mem_append.mpr
      exact Or.inr (mem_wantOnlyPart.mpr ⟨w, hw, hm, rfl⟩)
    · rcases List.exists_mem_of_ne_nil _ hm with ⟨h, hhm⟩
      have hk := (List.mem_filter.mp hhm).2
      unfold keyMatch at hk
      simp only [decide_eq_true_eq] at hk
      have hhs : h ∈ explodeColumn g (fun r => r.hvF) recs :=
        List.mem_of_mem_filter hhm
      have hwm : w ∈ matchesOf (explodeColumn g (fun r => r.wtF) recs) h := by
        unfold matchesOf keyMatch
        refine List.mem_filter.mpr ⟨hw, ?_⟩
        simp [hk.1, hk.2.1, hk.2.2]
      refine ⟨⟨h.rid, some h.tok, some w.tok, h.grp⟩, ?_, hk.1.symm ▸ rfl, rfl,
        hk.2.2.symm ▸ rfl⟩
      apply List.mem_append.mpr
      refine Or.inl (mem_havePart.mpr ⟨h, hhs, ?_⟩)
      unfold hBlock
      rw [if_neg (List.ne_nil_of_mem hwm)]
      exact List.mem_map.mpr ⟨w, hwm, rfl⟩
  · intro j hj
    rintro ⟨h1, h2⟩
    rcases List.mem_append.mp hj with hL | hR
    · rcases mem_havePart.mp hL with ⟨h, -, hb⟩
      rcases hBlock_fields hb with ⟨-, hhv, -, -⟩
      rw [h1] at hhv
      cases hhv
    · rcases mem_wantOnlyPart.mp hR with ⟨w, -, -, rfl⟩
      cases h2

/-- Witness for claim C7: the exploded have-row (R1, "Python") of Scenario A
appears in the joined output. -/
theorem claim_C7_witness :
    ∃ j ∈ createHaveWantDf noGroups scenarioA,
      j.rid = 1 ∧ j.hv = some "Python" ∧ j.grp = "" :=
  (claim_C7 noGroups scenarioA).1 ⟨1, "Python", ""⟩ (by with_unfolding_all decide)

/-- Claim C8, amended: explosion drops exactly the records whose field is null
or "NA", splits the rest on ";", and emits one row per token without
deduplication — including empty-string tokens, which the split keeps (the
counterexample shows "A;" emitting one); a record with "A;B;A" yields exactly
the three rows A, B, A. -/
theorem claim_C8_amended :
    (∀ (g : Record → String) (sel : Record → Option String) (recs : List Record)
        (i : Nat) (t gv : String),
      (explodeColumn g sel recs).countP
          (fun e => decide (e.rid = i ∧ e.tok = t ∧ e.grp = gv))
        = (recs.map (fun r =>
            if r.rid = i ∧ g r = gv then tokCount (recordTokens sel r) t else 0)).sum) ∧
    explodeColumn noGroups (fun r => r.hvF) [⟨1, some "A;B;A", none, ""⟩]
      = [⟨1, "A", ""⟩, ⟨1, "B", ""⟩, ⟨1, "A", ""⟩] :=
  ⟨fun g sel recs i t gv => eCount_explode g sel recs i t gv,
    by with_unfolding_all decide⟩

/-- Claim C9: with an absent threshold the exclusion filter is the identity on
the metric output — every metric row's token appears in the (unthresholded)
exclusion df of the metric's column, so the filter removes nothing, for every
metric kind and grouping. -/
theorem claim_C9 (g : Record → String) (recs : List Record) (m : Metric) :
    createPlotData g recs m none = plotDataOf g recs m := by
  unfold createPlotData
  rw [List.filter_eq_self]
  intro p hp
  obtain ⟨k, v⟩ := p
  simp only [decide_eq_true_eq]
  rw [exclusionTokens_none, List.mem_dedup, List.mem_filterMap]
  rcases List.countP_pos_iff.mp (plot_token_pos g recs m k v hp) with ⟨j, hj, hdj⟩
  exact ⟨j, hj, by simpa using hdj⟩

/-- Claim C10: for a record listing token t m times among haves and n times
among wants (under unique record ids), the join holds exactly m times n rows
with both tokens equal to t for that record and its group value — the
Cartesian per-key behaviour of the full join. -/
theorem claim_C10 (g : Record → String) (recs : List Record) (r : Record)
    (hr : r ∈ recs) (hid : (recs.map Record.rid).Nodup) (t : String) :
    (createHaveWantDf g recs).countP
        (fun j => decide (j.rid = r.rid ∧ j.hv = some t ∧ j.wt = some t ∧
          j.grp = g r))
      = tokCount (recordTokens (fun x => x.hvF) r) t *
          tokCount (recordTokens (fun x => x.wtF) r) t := by
  rw [joined_countP_both,
    eCount_explode_eq_tokCount g (fun x => x.hvF) recs r hr hid t,
    eCount_explode_eq_tokCount g (fun x => x.wtF) recs r hr hid t]

/-- Witness for claim C10: the record listing "Go" twice among haves and twice
among wants produces 2 * 2 = 4 both-token joined rows, and Count-Have counts
all four of them. -/
theorem claim_C10_witness :
    ((⟨1, some "Go;Py;Go", some "Go;Go", ""⟩ : Record) ∈ duplicateBothData) ∧
    (duplicateBothData.map Record.rid).Nodup ∧
    ((createHaveWantDf noGroups duplicateBothData).countP
        (fun j => decide (j.rid = 1 ∧ j.hv = some "Go" ∧ j.wt = some "Go" ∧
          j.grp = ""))
      = tokCount (recordTokens (fun x => x.hvF)
            ⟨1, some "Go;Py;Go", some "Go;Go", ""⟩) "Go" *
          tokCount (recordTokens (fun x => x.wtF)
            ⟨1, some "Go;Py;Go", some "Go;Go", ""⟩) "Go") ∧
    tokCount (recordTokens (fun x => x.hvF)
        ⟨1, some "Go;Py;Go", some "Go;Go", ""⟩) "Go" *
      tokCount (recordTokens (fun x => x.wtF)
        ⟨1, some "Go;Py;Go", some "Go;Go", ""⟩) "Go" = 4 ∧
    ((createHaveWantDf noGroups duplicateBothData).countP
        (fun j => decide (haveKey j = some ("Go", "")))) = 4 :=
  ⟨by with_unfolding_all decide, by with_unfolding_all decide,
    claim_C10 noGroups duplicateBothData ⟨1, some "Go;Py;Go", some "Go;Go", ""⟩
      (by with_unfolding_all decide) (by with_unfolding_all decide) "Go",
    by with_unfolding_all decide, by with_unfolding_all decide⟩

end Survey

namespace Rural

/-- Claim C4, amended: the grouped ratio aggregate satisfies
`average = sum / count` whenever the count is non-zero (a zero count gives an
IEEE infinity or NaN, not 0 — the counterexample), `subPropSum` and
`subPropCount` are 0 whenever the key has no sub-population rows (the left
join's null filled by `fill_null(0)`), and equal `subSum / sum` and
`subCount / count` whenever their denominators are non-zero; a zero
denominator with a present sub-population gives infinity or NaN, not 0. -/
theorem claim_C4_amended (rows : List InvRow) (state : Option String)
    (prow : PlotRow) (hp : prow ∈ createPlotData rows state) :
    (prow.sumN ≠ 0 → prow.avg = FVal.fin (prow.sumD / (prow.sumN : ℚ))) ∧
    (lookupAgg (groupAndCalcData (sviData rows state)) prow.grp = none →
      prow.propSumSvi = FVal.fin 0 ∧ prow.propNumSvi = FVal.fin 0) ∧
    (∀ b, lookupAgg (groupAndCalcData (sviData rows state)) prow.grp = some b →
      (prow.sumD ≠ 0 → prow.propSumSvi = FVal.fin (b.sumD / prow.sumD)) ∧
      (prow.sumN ≠ 0 → prow.propNumSvi = FVal.fin ((b.sumN : ℚ) / (prow.sumN : ℚ)))) := by
  unfold createPlotData at hp
  rcases List.mem_map.mp hp with ⟨a, ha, heq⟩
  have havg : a.avg = fdiv a.sumD (a.sumN : ℚ) := aggRow_avg _ a ha
  cases hlk : lookupAgg (groupAndCalcData (sviData rows state)) a.grp with
  | none =>
      rw [hlk] at heq
      subst heq
      refine ⟨?_, ?_, ?_⟩
      · intro hn
        show a.avg = FVal.fin (a.sumD / (a.sumN : ℚ))
        rw [havg]
        exact fdiv_ne_zero _ _ (by exact_mod_cast hn)
      · intro _
        exact ⟨rfl, rfl⟩
      · intro b hb
        rw [show (⟨a.grp, a.sumD, a.sumN, a.avg, FVal.fin 0, FVal.fin 0⟩ :
          PlotRow).grp = a.grp from rfl] at hb
        rw [hlk] at hb
        cases hb
  | some b0 =>
      rw [hlk] at heq
      subst heq
      refine ⟨?_, ?_, ?_⟩
      · intro hn
        show a.avg = FVal.fin (a.sumD / (a.sumN : ℚ))
        rw [havg]
        exact fdiv_ne_zero _ _ (by exact_mod_cast hn)
      · intro hb
        rw [show (⟨a.grp, a.sumD, a.sumN, a.avg, fdiv b0.sumD a.sumD,
          fdiv (b0.sumN : ℚ) (a.sumN : ℚ)⟩ : PlotRow).grp = a.grp from rfl] at hb
        rw [hlk] at hb
        cases hb
      · intro b hb
        rw [show (⟨a.grp, a.sumD, a.sumN, a.avg, fdiv b0.sumD a.sumD,
          fdiv (b0.sumN : ℚ) (a.sumN : ℚ)⟩ : PlotRow).grp = a.grp from rfl] at hb
        rw [hlk] at hb
        rcases Option.some.inj hb with rfl
        constructor
        · intro hd
          exact fdiv_ne_zero _ _ hd
        · intro hn
          exact fdiv_ne_zero _ _ (by exact_mod_cast hn)

/-- Witness for claim C4, amended — Scenario C: sum 100, count 2, average 50,
sub-population sum 30 and count 1 give proportions 3/10 and 1/2. -/
theorem claim_C4_amended_witness :
    (scenarioCRow ∈ createPlotData scenarioC none) ∧
    (lookupAgg (groupAndCalcData (sviData scenarioC none)) scenarioCRow.grp
      = some scenarioCSubRow) ∧
    scenarioCRow.avg = FVal.fin (scenarioCRow.sumD / (scenarioCRow.sumN : ℚ)) ∧
    scenarioCRow.propSumSvi
      = FVal.fin (scenarioCSubRow.sumD / scenarioCRow.sumD) ∧
    scenarioCRow.propNumSvi
      = FVal.fin ((scenarioCSubRow.sumN : ℚ) / (scenarioCRow.sumN : ℚ)) :=
  ⟨by with_unfolding_all decide, by with_unfolding_all decide,
    (claim_C4_amended scenarioC none scenarioCRow
      (by with_unfolding_all decide)).1 (by with_unfolding_all decide),
    ((claim_C4_amended scenarioC none scenarioCRow
      (by with_unfolding_all decide)).2.2 scenarioCSubRow
      (by with_unfolding_all decide)).1 (by with_unfolding_all decide),
    ((claim_C4_amended scenarioC none scenarioCRow
      (by with_unfolding_all decide)).2.2 scenarioCSubRow
      (by with_unfolding_all decide)).2 (by with_unfolding_all decide)⟩

end Rural
